import Mathlib

/-!
Verification development for the check-in automation shim (`src/adapter.js`).

The file shallow-embeds the parts of the program the claims are about:

* a model of the host JSON codec (`JSON.parse` / `JSON.stringify`) used by the
  key-value store (`Env.getdata` / `Env.setdata` / `Env.lodash_get` /
  `Env.lodash_set`),
* the `Request` facade (method inference, URL assembly, body encoding,
  timeout race, transport-failure handling),
* the environment detector (`Env.getEnv`),
* the task orchestrator (`main`, per-account workflow of `UserInfo`).

JavaScript values flowing through the storage layer are modelled by the
mutually inductive `JsValue`/`JsArr`/`JsObj` (objects are insertion-ordered
association lists, exactly the enumeration order `for…in` and
`JSON.stringify` use on parsed JSON data).  Numbers are carried as their raw
numeral strings (`JsValue.num "12"`): the adapter never does arithmetic on
values stored inside documents, so only the numeral's identity matters here.
JS `undefined` is represented as `Option.none` at the points where it can
arise (missing properties, absent store entries); JSON `null` is
`JsValue.null`.
-/

set_option maxHeartbeats 1000000

namespace Adapter

mutual
/-- A JavaScript value produced by `JSON.parse` (and consumed by
`JSON.stringify`): the data manipulated by `Env.lodash_get`/`Env.lodash_set`. -/
inductive JsValue where
  | null
  | bool (b : Bool)
  | num (s : String)
  | str (s : String)
  | arr (xs : JsArr)
  | obj (fs : JsObj)
deriving DecidableEq
/-- The elements of a JS array, in order. -/
inductive JsArr where
  | nil
  | cons (hd : JsValue) (tl : JsArr)
deriving DecidableEq
/-- The own enumerable properties of a JS object, in insertion order. -/
inductive JsObj where
  | nil
  | cons (k : String) (v : JsValue) (tl : JsObj)
deriving DecidableEq
end

namespace JsArr

/-- `xs.length` of a JS array. -/
def length : JsArr → Nat
  | .nil => 0
  | .cons _ tl => 1 + tl.length

/-- `xs[i]`: `none` models JS `undefined` (index out of range / hole). -/
def getIdx : JsArr → Nat → Option JsValue
  | .nil, _ => none
  | .cons hd _, 0 => some hd
  | .cons _ tl, n + 1 => tl.getIdx n

end JsArr

namespace JsObj

/-- Own-property lookup; `none` models JS `undefined`. -/
def getKey : JsObj → String → Option JsValue
  | .nil, _ => none
  | .cons k v tl, key => if k = key then some v else tl.getKey key

end JsObj

/-- Model of JS truthiness for a JSON numeral: a numeral denotes `0` exactly
when every digit of its mantissa (the part before any exponent marker) is
`0`. -/
def numeralIsZero (s : String) : Bool :=
  (s.data.takeWhile (fun c => c ≠ 'e' ∧ c ≠ 'E')).all
    (fun c => ¬ c.isDigit ∨ c = '0')

/-- JS truthiness of a `JsValue` (`if (x)`): `null`, `false`, `""` and `0`
are falsy; every array or object is truthy. -/
def jsTruthy : JsValue → Bool
  | .null => false
  | .bool b => b
  | .num s => ¬ numeralIsZero s
  | .str s => s ≠ ""
  | .arr _ => true
  | .obj _ => true

/-- Containers are the values `v` with `Object(v) === v` (the only JSON
values that are JS objects). -/
def isContainer : JsValue → Bool
  | .arr _ => true
  | .obj _ => true
  | _ => false

/-! ## The JSON codec

`jsonRender` models `JSON.stringify` on parsed-JSON data and `jsonParse`
models `JSON.parse`.  The renderer emits exactly the compact form
`JSON.stringify` produces (no whitespace, `"`/`\`/control characters
escaped); the parser is strict where `JSON.parse` is strict — raw control
characters and unknown escapes in strings are rejected, numerals must match
the JSON grammar — and records a numeral's characters verbatim. -/

/-- Lower-case hex digit, as emitted by `JSON.stringify`'s `\u00xx` escapes. -/
def hexChar (n : Nat) : Char :=
  if n < 10 then Char.ofNat ('0'.toNat + n) else Char.ofNat ('a'.toNat + n - 10)

/-- JSON-escape one character of a string (`JSON.stringify` quoting rules). -/
def jsonEscChar (c : Char) : List Char :=
  if c = '"' then ['\\', '"']
  else if c = '\\' then ['\\', '\\']
  else if c = Char.ofNat 8 then ['\\', 'b']
  else if c = Char.ofNat 9 then ['\\', 't']
  else if c = Char.ofNat 10 then ['\\', 'n']
  else if c = Char.ofNat 12 then ['\\', 'f']
  else if c = Char.ofNat 13 then ['\\', 'r']
  else if c.toNat < 32 then
    ['\\', 'u', '0', '0', hexChar (c.toNat / 16), hexChar (c.toNat % 16)]
  else [c]

/-- Escaped body of a JSON string literal. -/
def jsonEscStr (cs : List Char) : List Char := cs.flatMap jsonEscChar

/-- A quoted JSON string literal. -/
def jsonQuote (s : String) : List Char := '"' :: (jsonEscStr s.data ++ ['"'])

mutual
/-- `JSON.stringify` on a value, as a character list. -/
def jsonRender : JsValue → List Char
  | .num s => s.data
  | .str s => jsonQuote s
  | .null => ['n', 'u', 'l', 'l']
  | .bool b => if b then ['t', 'r', 'u', 'e'] else ['f', 'a', 'l', 's', 'e']
  | .arr xs => '[' :: (jsonRenderArr xs ++ [']'])
  | .obj fs => '{' :: (jsonRenderObj fs ++ ['}'])
/-- Comma-separated renderings of an array's elements. -/
def jsonRenderArr : JsArr → List Char
  | .nil => []
  | .cons v .nil => jsonRender v
  | .cons v (.cons w tl) => jsonRender v ++ ',' :: jsonRenderArr (.cons w tl)
/-- Comma-separated `"key":value` renderings of an object's properties. -/
def jsonRenderObj : JsObj → List Char
  | .nil => []
  | .cons k v .nil => jsonQuote k ++ ':' :: jsonRender v
  | .cons k v (.cons k2 w tl) =>
      jsonQuote k ++ ':' :: jsonRender v ++ ',' :: jsonRenderObj (.cons k2 w tl)
end

/-- `JSON.stringify` as a `String`. -/
def jsonStringify (v : JsValue) : String := ⟨jsonRender v⟩

/-- JSON whitespace. -/
def jsonWs (c : Char) : Bool := c = ' ' ∨ c = Char.ofNat 9 ∨ c = Char.ofNat 10 ∨ c = Char.ofNat 13

/-- Drop leading JSON whitespace. -/
def wsDrop : List Char → List Char
  | c :: cs => if jsonWs c then wsDrop cs else c :: cs
  | [] => []

/-- Value of a hex digit (both cases accepted, as in `JSON.parse`). -/
def hexVal (c : Char) : Option Nat :=
  if '0' ≤ c ∧ c ≤ '9' then some (c.toNat - '0'.toNat)
  else if 'a' ≤ c ∧ c ≤ 'f' then some (c.toNat - 'a'.toNat + 10)
  else if 'A' ≤ c ∧ c ≤ 'F' then some (c.toNat - 'A'.toNat + 10)
  else none

/-- Body of a JSON string literal after the opening quote.  Strict as
`JSON.parse` is: raw control characters and unrecognised escapes fail. -/
def jsonParseStr : List Char → Option (List Char × List Char)
  | [] => none
  | '"' :: rest => some ([], rest)
  | '\\' :: 'u' :: a :: b :: c :: d :: rest => do
      let va ← hexVal a
      let vb ← hexVal b
      let vc ← hexVal c
      let vd ← hexVal d
      let (s, r) ← jsonParseStr rest
      pure (Char.ofNat (((va * 16 + vb) * 16 + vc) * 16 + vd) :: s, r)
  | '\\' :: e :: rest => do
      let c ← match e with
        | '"' => some '"'
        | '\\' => some '\\'
        | '/' => some '/'
        | 'b' => some (Char.ofNat 8)
        | 'f' => some (Char.ofNat 12)
        | 'n' => some (Char.ofNat 10)
        | 'r' => some (Char.ofNat 13)
        | 't' => some (Char.ofNat 9)
        | _ => none
      let (s, r) ← jsonParseStr rest
      pure (c :: s, r)
  | c :: rest =>
      if c.toNat < 32 then none
      else do
        let (s, r) ← jsonParseStr rest
        pure (c :: s, r)

/-- Maximal run of decimal digits. -/
def digitRun : List Char → List Char × List Char
  | c :: cs =>
      if c.isDigit then
        let (ds, r) := digitRun cs
        (c :: ds, r)
      else ([], c :: cs)
  | [] => ([], [])

/-- The optional leading minus of a numeral. -/
def parseSign : List Char → List Char × List Char
  | [] => ([], [])
  | c :: r => if c = '-' then (['-'], r) else ([], c :: r)

/-- The integer part of a numeral: `0`, or a nonzero digit and a digit run. -/
def parseIntPart : List Char → Option (List Char × List Char)
  | [] => none
  | c :: r =>
      if c = '0' then some (['0'], r)
      else if c.isDigit then
        let p := digitRun r
        some (c :: p.1, p.2)
      else none

/-- The optional fraction: a `.` must be followed by at least one digit. -/
def parseFracPart : List Char → Option (List Char × List Char)
  | [] => some ([], [])
  | c :: r =>
      if c = '.' then
        let p := digitRun r
        if p.1.isEmpty then none else some ('.' :: p.1, p.2)
      else some ([], c :: r)

/-- The optional exponent: `e`/`E`, an optional sign, and at least one
digit; anything less leaves the input untouched. -/
def parseExpPart : List Char → List Char × List Char
  | [] => ([], [])
  | [e] => ([], [e])
  | e :: s :: r1 =>
      if e = 'e' ∨ e = 'E' then
        if s = '+' ∨ s = '-' then
          let p := digitRun r1
          if p.1.isEmpty then ([], e :: s :: r1) else (e :: s :: p.1, p.2)
        else
          let p := digitRun (s :: r1)
          if p.1.isEmpty then ([], e :: s :: r1) else (e :: p.1, p.2)
      else ([], e :: s :: r1)

/-- A JSON numeral, strict grammar (`-? (0 | [1-9][0-9]*) (\.[0-9]+)?
([eE][+-]?[0-9]+)?`), returned verbatim as its character list. -/
def jsonParseNum (cs : List Char) : Option (List Char × List Char) := do
  let (sgn, cs1) := parseSign cs
  let (ip, cs2) ← parseIntPart cs1
  let (fp, cs3) ← parseFracPart cs2
  let (ep, cs4) := parseExpPart cs3
  some (sgn ++ ip ++ fp ++ ep, cs4)

mutual
/-- `JSON.parse`, fuel-indexed recursive descent over the character list,
returning the parsed value and the unconsumed remainder. -/
def jsonParseVal : Nat → List Char → Option (JsValue × List Char)
  | 0, _ => none
  | fuel + 1, cs =>
      match wsDrop cs with
      | 'n' :: 'u' :: 'l' :: 'l' :: r => some (.null, r)
      | 't' :: 'r' :: 'u' :: 'e' :: r => some (.bool true, r)
      | 'f' :: 'a' :: 'l' :: 's' :: 'e' :: r => some (.bool false, r)
      | '"' :: r => do
          let (s, r2) ← jsonParseStr r
          pure (.str ⟨s⟩, r2)
      | '[' :: r =>
          (match wsDrop r with
          | ']' :: r2 => some (.arr .nil, r2)
          | r2 => do
              let (xs, r3) ← jsonParseArr fuel r2
              pure (.arr xs, r3))
      | '{' :: r =>
          (match wsDrop r with
          | '}' :: r2 => some (.obj .nil, r2)
          | r2 => do
              let (fs, r3) ← jsonParseObj fuel r2
              pure (.obj fs, r3))
      | c :: r =>
          if c = '-' ∨ c.isDigit then do
            let (ds, r2) ← jsonParseNum (c :: r)
            pure (.num ⟨ds⟩, r2)
          else none
      | [] => none
/-- One or more comma-separated array elements, consuming the closing `]`. -/
def jsonParseArr : Nat → List Char → Option (JsArr × List Char)
  | 0, _ => none
  | fuel + 1, cs => do
      let (v, r) ← jsonParseVal fuel cs
      match wsDrop r with
      | ',' :: r2 => do
          let (xs, r3) ← jsonParseArr fuel r2
          pure (.cons v xs, r3)
      | ']' :: r2 => pure (.cons v .nil, r2)
      | _ => none
/-- One or more comma-separated object members, consuming the closing brace. -/
def jsonParseObj : Nat → List Char → Option (JsObj × List Char)
  | 0, _ => none
  | fuel + 1, cs =>
      match wsDrop cs with
      | '"' :: r => do
          let (k, r1) ← jsonParseStr r
          match wsDrop r1 with
          | ':' :: r2 => do
              let (v, r3) ← jsonParseVal fuel r2
              (match wsDrop r3 with
              | ',' :: r4 => do
                  let (fs, r5) ← jsonParseObj fuel r4
                  pure (JsObj.cons ⟨k⟩ v fs, r5)
              | '}' :: r4 => pure (JsObj.cons ⟨k⟩ v .nil, r4)
              | _ => none)
          | _ => none
      | _ => none
end

/-- `JSON.parse` on a `String`: the whole input must be one JSON value plus
trailing whitespace; `none` models the `SyntaxError` throw.

The model differs from the host builtin in two inessential ways: a numeral is
kept verbatim instead of being converted to a float (the adapter never does
arithmetic on stored document values), and duplicate object keys keep both
members (the adapter's documents never carry duplicate keys). -/
def jsonParse (s : String) : Option JsValue :=
  match jsonParseVal (s.data.length + 1) s.data with
  | some (v, r) => if wsDrop r = [] then some v else none
  | none => none

/-- `$.toObj`: best-effort JSON parse, `none` standing for the default `null`. -/
def toObj (s : String) : Option JsValue := jsonParse s

/-- `$.toStr`: `JSON.stringify`. -/
def toStr (v : JsValue) : String := jsonStringify v

/-! ## Path parsing

`Env.lodash_get` parses a path with
`e.replace(/\[(\d+)\]/g, ".$1").split(".")`;
`Env.lodash_set` parses it with `e.toString().match(/[^.[\]]+/g) || []`.
The two differ on malformed paths, which matters for the round-trip claim. -/

/-- `\d+]` right after a `[`, for the bracket-index rewrite. -/
def bracketNum (cs : List Char) : Option (List Char × List Char) :=
  if (digitRun cs).1.isEmpty then none
  else
    match (digitRun cs).2 with
    | ']' :: r2 => some ((digitRun cs).1, r2)
    | _ => none

lemma digitRun_snd_length (cs : List Char) : (digitRun cs).2.length ≤ cs.length := by
  induction cs with
  | nil => simp [digitRun]
  | cons c cs ih =>
      by_cases h : c.isDigit
      · simp only [digitRun, h, if_pos]
        simpa using Nat.le_succ_of_le ih
      · simp [digitRun, h]

lemma bracketNum_length {cs ds r : List Char} (h : bracketNum cs = some (ds, r)) :
    r.length < cs.length + 1 := by
  have hlen := digitRun_snd_length cs
  unfold bracketNum at h
  split at h
  · exact absurd h (by simp)
  · split at h
    · rename_i r2 heq
      simp only [Option.some.injEq, Prod.mk.injEq] at h
      obtain ⟨rfl, rfl⟩ := h
      rw [heq] at hlen
      simp only [List.length_cons] at hlen
      omega
    · exact absurd h (by simp)

/-- Numeric value of a digit run. -/
def digitsToNat (ds : List Char) : Nat :=
  ds.foldl (fun acc c => acc * 10 + (c.toNat - '0'.toNat)) 0

/-- A canonical array index: the decimal numeral of some `n < 2^32 - 1`
(no leading zeros).  Property keys of this shape address array elements;
every other key is a plain property, which `JSON.stringify` drops. -/
def canonicalIdx (s : String) : Option Nat :=
  match s.data with
  | ['0'] => some 0
  | c :: cs =>
      if c.isDigit ∧ c ≠ '0' ∧ cs.all Char.isDigit then
        let n := digitsToNat (c :: cs)
        if n < 2 ^ 32 - 1 then some n else none
      else none
  | [] => none

/-! ## `Env.lodash_get` / `Env.lodash_set` -/

/-- The property read `Object(o)[k]` on parsed-JSON data: own object
properties, array elements plus `length`, string characters plus `length`;
`none` is JS `undefined`.  (Methods inherited from the prototypes are not
data and are not modelled.) -/
def jsGetKey : JsValue → String → Option JsValue
  | .obj fs, k => fs.getKey k
  | .arr xs, k =>
      (match canonicalIdx k with
      | some i => xs.getIdx i
      | none => if k = "length" then some (.num (toString xs.length)) else none)
  | .str s, k =>
      (match canonicalIdx k with
      | some i => (s.data.get? i).map (fun c => .str ⟨[c]⟩)
      | none => if k = "length" then some (.num (toString s.data.length)) else none)
  | _, _ => none

/-- A request spec as passed to `Request` (absent fields are `none`; a JS
`body: undefined` member is identified with an absent body). -/
structure RequestSpec where
  url : String
  type : Option String := none
  headers : Option (List (String × String)) := none
  body : Option JsValue := none
  params : Option JsObj := none
  dataType : Option String := none
  resultType : Option String := none
  timeout : Option ℚ := none

/-- The encoded value of one `queryStr` pair: `none` when the pair is
dropped (`null`/`undefined` or the empty string), the JSON text for
non-primitive values, the template-literal rendering otherwise. -/
def queryStrVal : JsValue → Option String
  | .null => none
  | .str s => if s = "" then none else some s
  | .num s => some s
  | .bool b => some (if b then "true" else "false")
  | .arr xs => some (jsonStringify (.arr xs))
  | .obj fs => some (jsonStringify (.obj fs))

/-- The `k=v&` runs accumulated by `Env.queryStr`'s loop. -/
def queryStrParts : JsObj → String
  | .nil => ""
  | .cons k v tl =>
      (match queryStrVal v with
      | some sv => k ++ "=" ++ sv ++ "&"
      | none => "") ++ queryStrParts tl

/-- `Env.queryStr`: the accumulated pairs with the trailing `&` cut by
`substring(0, length - 1)` (which on the empty accumulation is `""`). -/
def queryStr (t : JsObj) : String := ⟨(queryStrParts t).data.dropLast⟩

/-- `queryStr` over an optional mapping: JS `for…in` over `undefined`
iterates nothing. -/
def queryStrOpt : Option JsObj → String
  | some fs => queryStr fs
  | none => ""

/-- The own enumerable properties `for…in` visits on a body value (an
array enumerates its index keys; primitives have none). -/
def enumProps : JsValue → JsObj
  | .obj fs => fs
  | .arr xs => enumPropsArr 0 xs
  | _ => .nil
where
  /-- Index-keyed view of an array. -/
  enumPropsArr (i : Nat) : JsArr → JsObj
    | .nil => .nil
    | .cons v tl => .cons (toString i) v (enumPropsArr (i + 1) tl)

/-- The method `Request` resolves: an explicit `type` lower-cased, else
`post` exactly when the spec has a `body`. -/
def resolvedMethod (t : RequestSpec) : String :=
  match t.type with
  | some e => e.toLower
  | none => if t.body.isSome then "post" else "get"

/-- The URL `Request` builds: `url.concat("post" === p ? "?" + queryStr(a)
: "")` — a POST URL always gains `?` plus the encoded params. -/
def requestUrl (t : RequestSpec) : String :=
  t.url ++ (if resolvedMethod t = "post" then "?" ++ queryStrOpt t.params else "")

/-- The effective timeout `i`: a truthy caller timeout, divided by `1e3` on
Surge, taken as-is elsewhere; `1e4` when absent (or `0`, which is falsy). -/
def effectiveTimeout (timeout : Option ℚ) (isSurge : Bool) : ℚ :=
  match timeout with
  | some q => if q ≠ 0 then (if isSurge then q / 1000 else q) else 10000
  | none => 10000

/-- The body string `y`: a string body unchanged; otherwise `queryStr` under
the (default) `form` encoding for truthy bodies, `JSON.stringify` in every
other case.  `none` is the absent/undefined body of a GET. -/
def requestBodyStr (t : RequestSpec) : Option String :=
  match t.body with
  | none => none
  | some (.str s) => some s
  | some v =>
      if jsTruthy v ∧ t.dataType.getD "form" = "form" then some (queryStr (enumProps v))
      else some (toStr v)

/-- JS object property write on a headers record (replace in place or
append; keys are case-sensitive). -/
def hdrSet : List (String × String) → String → String → List (String × String)
  | [], k, v => [(k, v)]
  | (k0, v0) :: tl, k, v =>
      if k0 = k then (k0, v) :: tl else (k0, v0) :: hdrSet tl k v

/-- `delete headers[k]`. -/
def hdrDel (hs : List (String × String)) (k : String) : List (String × String) :=
  hs.filter (fun p => p.1 ≠ k)

/-- Truthiness of `headers[k]` (the code guards with `!t.headers[k]`). -/
def hdrHas (hs : List (String × String)) (k : String) : Bool :=
  match hs.lookup k with
  | some v => v ≠ ""
  | none => false

/-- The headers record `r` after `Request`'s own step: the caller's headers
(`{}` when absent), with the JSON content type stamped for
`dataType: "json"`. -/
def requestHeaders (t : RequestSpec) : List (String × String) :=
  let r := t.headers.getD []
  if t.dataType = some "json" then hdrSet r "Content-Type" "application/json;charset=UTF-8"
  else r

/-- `Env.post`'s header step: default the form content type when a truthy
body is present and no content type is, then drop any content length. -/
def envPostHeaders (body : Option String) (hs : List (String × String)) :
    List (String × String) :=
  let bodyTruthy : Bool := match body with | some b => b ≠ "" | none => false
  let withCt :=
    if bodyTruthy ∧ ¬ hdrHas hs "Content-Type" ∧ ¬ hdrHas hs "content-type" then
      hdrSet hs "content-type" "application/x-www-form-urlencoded"
    else hs
  hdrDel (hdrDel withCt "Content-Length") "content-length"

/-- `Env.get`'s header step: drop content type and content length. -/
def envGetHeaders (hs : List (String × String)) : List (String × String) :=
  hdrDel (hdrDel (hdrDel (hdrDel hs "Content-Type") "Content-Length") "content-type")
    "content-length"

/-- What the native transport receives. -/
structure TransportCall where
  url : String
  method : String
  headers : List (String × String)
  body : Option String
  timeout : ℚ
deriving DecidableEq

/-- The call `$.http[p](l)` hands to the active native transport, after
`Request`'s assembly and `Env.get`/`Env.post`'s own mutations.  (`Env.get`
re-appends truthy `params` — still present on `l` via the `...t` spread —
to the URL; `Env.post` does not touch the URL.) -/
def transportCall (t : RequestSpec) (isSurge : Bool) : TransportCall :=
  let p := resolvedMethod t
  let c := requestUrl t
  let i := effectiveTimeout t.timeout isSurge
  let r := requestHeaders t
  let y := requestBodyStr t
  if p = "post" then
    { url := c, method := "post", headers := envPostHeaders y r, body := y, timeout := i }
  else
    { url := c ++ (match t.params with
        | some fs => "?" ++ queryStr fs
        | none => ""),
      method := "get", headers := envGetHeaders r, body := none, timeout := i }

/-- The literal rejection of the timeout timer. -/
def timeoutMsg : String := "当前请求已超时"

/-- How the native transport attempt ends (a network error and a hostile
status are both surfaced through the error callback / rejection). -/
inductive TransportOutcome where
  | ok (body : String)
  | err (msg : String)

/-- The default (`data`) result shaping: best-effort JSON parse of the body,
falling back to the raw body when the parse fails or yields a falsy value. -/
def dataResult (body : String) : JsValue :=
  match toObj body with
  | some v => if jsTruthy v then v else .str body
  | none => .str body

/-- The transport branch `m` of the race: the `then` continuation shapes a
success, and the `.catch` logs a failure and yields `undefined` (`none`) —
this branch never rejects. -/
def transportBranch (tr : TransportOutcome) : Except String (Option JsValue) :=
  match tr with
  | .ok body => .ok (some (dataResult body))
  | .err _ => .ok none

/-- How a `Request` settles. -/
inductive RequestOutcome where
  | resolved (v : Option JsValue)
  | rejected (e : String)
deriving DecidableEq

/-- `Promise.race([timer, m])`: the timer rejects with `timeoutMsg` after
the effective timeout, so it wins whenever the transport needs longer
(`latency`, `none` for a transport that never settles). -/
def requestRace (eff : ℚ) (latency : Option ℚ) (tr : TransportOutcome) :
    RequestOutcome :=
  match latency with
  | none => .rejected timeoutMsg
  | some lat =>
      if eff < lat then .rejected timeoutMsg
      else
        match transportBranch tr with
        | .ok v => .resolved v
        | .error e => .rejected e

/-- `Request` end-to-end for a spec with a URL: assemble the transport call
and race it. -/
def requestSettle (t : RequestSpec) (isSurge : Bool) (latency : Option ℚ)
    (tr : TransportOutcome) : RequestOutcome :=
  requestRace (effectiveTimeout t.timeout isSurge) latency tr

/-! ## The environment detector (`Env.getEnv`) -/

/-- The ambient markers `getEnv` probes: each field is the truthiness of the
corresponding guard expression. -/
structure Ambient where
  surgeMarker : Bool
  stashMarker : Bool
  moduleMarker : Bool
  taskMarker : Bool
  loonMarker : Bool
  rocketMarker : Bool

/-- `Env.getEnv`: the conditional chain, in source order — `$environment`
with a Surge version, `$environment` with a Stash version, a CommonJS
module system, `$task`, `$loon`, `$rocket` — and `undefined` (`none`) when
nothing matches. -/
def getEnv (a : Ambient) : Option String :=
  if a.surgeMarker then some "Surge"
  else if a.stashMarker then some "Stash"
  else if a.moduleMarker then some "Node.js"
  else if a.taskMarker then some "Quantumult X"
  else if a.loonMarker then some "Loon"
  else if a.rocketMarker then some "Shadowrocket"
  else none

/-! ## The task orchestrator (`main`, `UserInfo`, `checkEnv`, `DoubleLog`)

One account's run is determined by the outcomes of its HTTP calls, recorded
in an `AccountOutcome`: each `bean(type)` either yields a `totalCount`
(`some n`) or fails (`none` — a failed fetch, a `500` code, or a missing
field all surface as `undefined`); every other call carries a success bit
(`false` covers a thrown/failed fetch or a response that makes the handler
throw, each of which flips `ckStatus` inside the method's `catch`), and the
`step()` calls additionally record whether the response message matched the
daily-limit pattern that breaks the exchange loop.

An account record carries its display name as an `Option`: `user.userName`
is `undefined` (`none`) when the stored record lacks the field (a record
can be a bare token string).  The distinction is load-bearing: the success
branch's template renders `undefined` as the text `"undefined"`, while the
failure branch's nullish-coalescing fallback (the template reading the
identifier `index`, which is unbound in `main`) throws a `ReferenceError`,
which `main`'s catch rethrows — aborting the whole batch. -/

/-- The observable outcomes of one account's HTTP calls. -/
structure AccountOutcome where
  userName : Option String
  bean1a : Option Int
  bean2a : Option Int
  signinOk : Bool
  task1Ok : Bool
  task2Ok : Bool
  task3Ok : Bool
  step1Ok : Bool
  step1Lim : Bool
  step2Ok : Bool
  step2Lim : Bool
  step3Ok : Bool
  step3Lim : Bool
  poolOk : Bool
  betOk : Bool
  bean1b : Option Int
  bean2b : Option Int

/-- A site-specific workflow call the orchestrator issues. -/
inductive StepTag where
  | bean (round : Nat) (ty : Nat)
  | signin
  | doTask (taskId : Nat)
  | stepEx
  | poolSign
  | bet
deriving DecidableEq

/-- `ckStatus` as the `UserInfo` constructor initialises it. -/
def initCkStatus : Bool := true

/-- Truthiness of a `bean` result (`getCount && useCount` guards): present
and nonzero. -/
def beanTruthy : Option Int → Bool
  | some n => n ≠ 0
  | none => false

/-- The plan of one `getBean()`: its two `bean` calls (each fetch failure
flips the flag), then the silent flip of the `!(getCount && useCount)`
throw.  The untagged entry folds every way a call can come back without a
usable count into one flag clear; when a response merely lacks
`totalCount` (no failed fetch, no `500`), the source flag flips at
`getBean`'s own throw rather than at the call, so the annotation recorded
at the second `bean` call can be one call early — the claims below never
read the flag at that position. -/
def getBeanPlan (round : Nat) (b1 b2 : Option Int) : List (Option StepTag × Bool) :=
  [(some (.bean round 1), b1.isSome), (some (.bean round 2), b2.isSome),
   (none, beanTruthy b1 ∧ beanTruthy b2)]

/-- The up-to-three `step()` exchanges, stopped by a truthy return (the
daily-limit match). -/
def stepLoopPlan (o : AccountOutcome) : List (Option StepTag × Bool) :=
  if o.step1Ok ∧ o.step1Lim then [(some .stepEx, o.step1Ok)]
  else if o.step2Ok ∧ o.step2Lim then
    [(some .stepEx, o.step1Ok), (some .stepEx, o.step2Ok)]
  else
    [(some .stepEx, o.step1Ok), (some .stepEx, o.step2Ok), (some .stepEx, o.step3Ok)]

/-- The work phase `main` runs inside `if (user.ckStatus)`: signin, the
three Alipay tasks, the step loop, pool sign-in, bet, and the closing
`getBean()`. -/
def workPlan (o : AccountOutcome) : List (Option StepTag × Bool) :=
  [(some .signin, o.signinOk),
   (some (.doTask 20), o.task1Ok),
   (some (.doTask 32), o.task2Ok),
   (some (.doTask 19), o.task3Ok)]
  ++ stepLoopPlan o
  ++ [(some .poolSign, o.poolOk), (some .bet, o.betOk)]
  ++ getBeanPlan 2 o.bean1b o.bean2b

/-- The value of `user.ckStatus` at `main`'s single gate, right after the
opening `getBean()`. -/
def authGate (o : AccountOutcome) : Bool := beanTruthy o.bean1a ∧ beanTruthy o.bean2a

/-- The full plan of one account: the opening `getBean()`, then — only when
the gate reads a true flag — the work phase. -/
def userPlan (o : AccountOutcome) : List (Option StepTag × Bool) :=
  getBeanPlan 1 o.bean1a o.bean2a ++ (if authGate o then workPlan o else [])

/-- Thread `ckStatus` through a plan: each issued call is recorded with the
flag's value at the moment it is issued, and each entry's outcome can only
clear the flag (`ck && ok`). -/
def runTrace (ck : Bool) : List (Option StepTag × Bool) → List (StepTag × Bool)
  | [] => []
  | (none, ok) :: rest => runTrace (ck && ok) rest
  | (some tag, ok) :: rest => (tag, ck) :: runTrace (ck && ok) rest

/-- The calls the orchestrator issues for one account, each with the
`ckStatus` it was issued under. -/
def runUserTrace (o : AccountOutcome) : List (StepTag × Bool) :=
  runTrace initCkStatus (userPlan o)

/-- The successive values `ckStatus` takes at the issued calls of one
account's run, starting from the constructor's `true`. -/
def ckStates (o : AccountOutcome) : List Bool :=
  initCkStatus :: (runUserTrace o).map Prod.snd

/-- What `getBean()` returns: the points balance when both counts are
truthy, else `undefined`. -/
def beanResult (b1 b2 : Option Int) : Option Int :=
  if beanTruthy b1 ∧ beanTruthy b2 then some (b1.getD 0 - b2.getD 0) else none

/-- The per-account line the success branch pushes:
`用户:name 积分:pF±(pE-pF)`, with a failed closing balance rendering JS's
`undefined >= pF` as `-` and `undefined - 0 - pF` as `NaN`. -/
def succLine (name : String) (pF : Int) (pE : Option Int) : String :=
  match pE with
  | some e =>
      "用户:" ++ name ++ " 积分:" ++ toString pF ++
        (if pF ≤ e then "+" else "-") ++ toString (e - pF)
  | none => "用户:" ++ name ++ " 积分:" ++ toString pF ++ "-NaN"

/-- The failure line `DoubleLog` pushes for an account whose gate failed. -/
def failLine (name : String) : String := "⛔️ 「" ++ name ++ "」签到失败, 用户需要去登录"

/-- The line `main` produces for an account: the success branch renders a
missing name as the text `undefined` (JS template-string semantics); the
failure branch's nullish-coalescing fallback evaluates the unbound
`index`, so a missing name there is a `ReferenceError` (`none`). -/
def perAccountLine (o : AccountOutcome) : Option String :=
  if authGate o then
    some (succLine (o.userName.getD "undefined")
      ((beanResult o.bean1a o.bean2a).getD 0) (beanResult o.bean1b o.bean2b))
  else o.userName.map failLine

/-- The accumulating state of `main`'s loop. -/
structure RunSummary where
  notifyMsg : List String
  succCount : Nat
deriving DecidableEq

/-- `main`'s account loop: one pass per stored account, in order; the
success branch pushes the points line and bumps `$.succCount`, the failure
branch pushes the `DoubleLog` line — unless composing it throws the
`ReferenceError`, which the `catch` rethrows: the loop aborts (`none`),
later accounts are never processed and no title is composed. -/
def mainLoop : RunSummary → List AccountOutcome → Option RunSummary
  | acc, [] => some acc
  | acc, o :: rest =>
      match perAccountLine o with
      | some line =>
          mainLoop
            { notifyMsg := acc.notifyMsg ++ [line],
              succCount := acc.succCount + (if authGate o then 1 else 0) } rest
      | none => none

/-- The aggregate title `main` composes after the loop. -/
def mainTitle (total succ : Nat) : String :=
  "共" ++ toString total ++ "个账号,成功" ++ toString succ ++ "个,失败" ++
    toString (total - succ) ++ "个"

/-- One orchestration pass: the final summary and title, `none` when the
loop aborted on the `ReferenceError`. -/
def mainRun (users : List AccountOutcome) : Option (RunSummary × String) :=
  (mainLoop ⟨[], 0⟩ users).map (fun s => (s, mainTitle users.length s.succCount))

/-- An account whose opening balance calls succeed. -/
def c1ceGood : AccountOutcome :=
  ⟨some "a", some 5, some 2, true, true, true, true, true, true, true,
    false, true, false, true, true, some 9, some 2⟩

/-- An account whose first balance call fails and whose stored record
carries no `userName`. -/
def c1ceBad : AccountOutcome :=
  ⟨none, none, some 2, true, true, true, true, true, true, true,
    false, true, false, true, true, some 9, some 2⟩

/-- How many `step()` exchanges the loop issues (it breaks on the first
truthy return). -/
def stepCallCount (o : AccountOutcome) : Nat :=
  if o.step1Ok ∧ o.step1Lim then 1
  else if o.step2Ok ∧ o.step2Lim then 2
  else 3

/-! ## Spec-side definitions for comparison

`queryPairsSpec`/`queryStrSpec` transcribe the spec's description of the
form encoding — "`key=value` pairs joined by `&` with JSON-stringified
values for non-primitive fields and with pairs whose value is null or the
empty string dropped" — to be compared with the code's `queryStr`. -/

/-- The kept pairs, each already rendered `key=value`. -/
def queryPairsSpec : JsObj → List String
  | .nil => []
  | .cons k v tl =>
      match queryStrVal v with
      | some sv => (k ++ "=" ++ sv) :: queryPairsSpec tl
      | none => queryPairsSpec tl

/-- Strings joined by `&`. -/
def joinAmp : List String → String
  | [] => ""
  | [p] => p
  | p :: q :: ps => p ++ "&" ++ joinAmp (q :: ps)

/-- The spec's phrasing of the form encoding: the kept pairs joined by `&`. -/
def queryStrSpec (t : JsObj) : String := joinAmp (queryPairsSpec t)

/-! ## Side conditions for the storage round-trip and frame claims -/

/-- Does the set-walk reach an existing array with the segment `length`?
That is the one step whose JS assignment resizes the array or throws a
`RangeError` (landing `setdata` in its catch block). -/
def touchesArrLen : JsValue → List String → Bool
  | _, [] => false
  | cur, k :: rest =>
      (match cur with
      | .arr _ => k == "length"
      | _ => false) ||
      (match jsGetKey cur k with
      | some c => isContainer c && touchesArrLen c rest
      | none => false)

/-- A well-formed JSON numeral: exactly what the numeral grammar accepts,
whole.  `JSON.parse` only ever produces these, and `JSON.stringify`
re-renders them verbatim, so well-formedness is what the codec round-trip
needs of a document's numbers. -/
def numWF (s : String) : Bool := jsonParseNum s.data = some (s.data, [])

mutual
/-- Every numeral inside the value is well formed. -/
def wfV : JsValue → Bool
  | .null => true
  | .bool _ => true
  | .str _ => true
  | .num s => numWF s
  | .arr xs => wfA xs
  | .obj fs => wfO fs
/-- `wfV` on all elements. -/
def wfA : JsArr → Bool
  | .nil => true
  | .cons v tl => wfV v ∧ wfA tl
/-- `wfV` on all member values. -/
def wfO : JsObj → Bool
  | .nil => true
  | .cons _ v tl => wfV v ∧ wfO tl
end

mutual
/-- Fuel bound for re-parsing a rendered value: one unit per parser call. -/
def fuelV : JsValue → Nat
  | .null => 1
  | .bool _ => 1
  | .num _ => 1
  | .str _ => 1
  | .arr xs => 1 + fuelA xs
  | .obj fs => 1 + fuelO fs
/-- Fuel for an element list (the same fuel flows to the element's value
and to the tail's list call). -/
def fuelA : JsArr → Nat
  | .nil => 1
  | .cons v tl => 1 + Nat.max (fuelV v) (fuelA tl)
/-- Fuel for a member list. -/
def fuelO : JsObj → Nat
  | .nil => 1
  | .cons _ v tl => 1 + Nat.max (fuelV v) (fuelO tl)
end

/-- A remainder that cannot extend a numeral: empty or headed by a character
that is neither a digit nor `.`/`e`/`E`.  Every JSON delimiter (`,`, `]`,
`\x7d`, end of input) qualifies. -/
def numDelim : List Char → Bool
  | [] => true
  | c :: _ => ¬ (c.isDigit ∨ c = '.' ∨ c = 'e' ∨ c = 'E')

/-- The integer part of a JSON numeral: the single digit `0`, or a nonzero
digit followed by digits. -/
def intShape (ip : List Char) : Prop :=
  ip = ['0'] ∨ (∃ c cs, ip = c :: cs ∧ c.isDigit ∧ c ≠ '0' ∧ ∀ x ∈ cs, x.isDigit)

/-- The fraction part: empty or a `.` followed by at least one digit. -/
def fracShape (fp : List Char) : Prop :=
  fp = [] ∨ (∃ d ds, fp = '.' :: d :: ds ∧ d.isDigit ∧ ∀ x ∈ ds, x.isDigit)

/-- The exponent part: empty or `e`/`E`, an optional sign, and at least one
digit. -/
def expShape (ep : List Char) : Prop :=
  ep = [] ∨ (∃ e sgn d ds, ep = e :: (sgn ++ d :: ds) ∧ (e = 'e' ∨ e = 'E') ∧
    (sgn = [] ∨ sgn = ['+'] ∨ sgn = ['-']) ∧ d.isDigit ∧ ∀ x ∈ ds, x.isDigit)

/-- The shape of a JSON numeral: optional sign, integer part, optional
fraction, optional exponent. -/
def numShape (cs : List Char) : Prop :=
  ∃ sgn ip fp ep, cs = sgn ++ ip ++ fp ++ ep ∧ (sgn = [] ∨ sgn = ['-']) ∧
    intShape ip ∧ fracShape fp ∧ expShape ep


/-! ## Compound storage addresses and concrete stores -/

lemma transportCall_of_post (t : RequestSpec) (s : Bool)
    (hp : resolvedMethod t = "post") :
    transportCall t s =
      { url := requestUrl t, method := "post",
        headers := envPostHeaders (requestBodyStr t) (requestHeaders t),
        body := requestBodyStr t, timeout := effectiveTimeout t.timeout s } := by
  simp only [transportCall, hp, if_pos]

/-- C5: for every request spec that resolves to method POST, the URL handed
to the native transport is the caller's URL with `?` followed by the encoded
query string of the params mapping appended to it (empty when no params are
given), while the body is carried separately in the call's body field: the
POST-with-trailing-query quirk. -/
theorem c5_post_url_carries_query (t : RequestSpec) (s : Bool)
    (hp : resolvedMethod t = "post") :
    (transportCall t s).url = t.url ++ "?" ++ queryStrOpt t.params ∧
    (transportCall t s).body = requestBodyStr t := by
  rw [transportCall_of_post t s hp]
  refine ⟨?_, rfl⟩
  show t.url ++ (if resolvedMethod t = "post" then "?" ++ queryStrOpt t.params else "")
      = t.url ++ "?" ++ queryStrOpt t.params
  rw [hp]
  simp only [if_pos]
  apply String.ext
  show t.url.data ++ ("?".data ++ (queryStrOpt t.params).data)
      = (t.url.data ++ "?".data) ++ (queryStrOpt t.params).data
  rw [List.append_assoc]

/-- A concrete POST: params appear in the URL even though the body travels
separately. -/
theorem c5_post_url_carries_query_witness :
    (transportCall
      { url := "https://x/y", body := some (.str "b"),
        params := some (.cons "q" (.str "1") .nil) } false).url = "https://x/y?q=1" ∧
    (transportCall
      { url := "https://x/y", body := some (.str "b"),
        params := some (.cons "q" (.str "1") .nil) } false).body = some "b" := by
  have h := c5_post_url_carries_query
    { url := "https://x/y", body := some (.str "b"),
      params := some (.cons "q" (.str "1") .nil) } false rfl
  exact ⟨by rw [h.1]; rfl, h.2⟩

lemma queryStrParts_data : ∀ (m : JsObj),
    (queryStrParts m).data =
      (match queryPairsSpec m with
      | [] => []
      | _ => (queryStrSpec m).data ++ ['&'])
  | .nil => rfl
  | .cons k v tl => by
      have ih := queryStrParts_data tl
      show ((match queryStrVal v with
        | some sv => k ++ "=" ++ sv ++ "&"
        | none => "") ++ queryStrParts tl).data = _
      rcases hv : queryStrVal v with _ | sv
      · have hpairs : queryPairsSpec (JsObj.cons k v tl) = queryPairsSpec tl := by
          simp [queryPairsSpec, hv]
        have hspec : queryStrSpec (JsObj.cons k v tl) = queryStrSpec tl := by
          simp [queryStrSpec, hpairs]
        rw [hpairs, hspec]
        show [] ++ (queryStrParts tl).data = _
        rw [List.nil_append]
        exact ih
      · have hq : queryPairsSpec (JsObj.cons k v tl)
            = (k ++ "=" ++ sv) :: queryPairsSpec tl := by
          simp [queryPairsSpec, hv]
        show (k ++ "=" ++ sv ++ "&").data ++ (queryStrParts tl).data = _
        rw [ih, hq]
        rcases hp : queryPairsSpec tl with _ | ⟨p, ps⟩
        · have hspec : queryStrSpec (JsObj.cons k v tl) = k ++ "=" ++ sv := by
            simp [queryStrSpec, hq, hp, joinAmp]
          rw [hspec]
          show (k ++ "=" ++ sv ++ "&").data ++ [] = (k ++ "=" ++ sv).data ++ ['&']
          rw [List.append_nil]
          rfl
        · have hspec : queryStrSpec (JsObj.cons k v tl)
              = (k ++ "=" ++ sv) ++ "&" ++ queryStrSpec tl := by
            simp [queryStrSpec, hq, hp, joinAmp]
          rw [hspec]
          show (k ++ "=" ++ sv ++ "&").data ++ ((queryStrSpec tl).data ++ ['&'])
              = ((k ++ "=" ++ sv) ++ "&" ++ queryStrSpec tl).data ++ ['&']
          show ((k ++ "=" ++ sv).data ++ ['&']) ++ ((queryStrSpec tl).data ++ ['&'])
              = (((k ++ "=" ++ sv).data ++ ['&']) ++ (queryStrSpec tl).data) ++ ['&']
          simp [List.append_assoc]

lemma queryStr_eq_spec (m : JsObj) : queryStr m = queryStrSpec m := by
  apply String.ext
  show (queryStrParts m).data.dropLast = (queryStrSpec m).data
  rw [queryStrParts_data]
  rcases hp : queryPairsSpec m with _ | ⟨p, ps⟩
  · show List.dropLast [] = (queryStrSpec m).data
    simp [queryStrSpec, hp, joinAmp]
  · exact List.dropLast_concat ..

/-- C6: the scenario `{url:"https://x/y", body:{a:1}}` reaches the transport
as a POST with body string `a=1` and the form content type; and in general,
under the defaulted `form` encoding, a mapping body is encoded exactly as
the kept `key=value` pairs joined by `&` (null/empty values dropped,
non-primitive values JSON-stringified). -/
theorem c6_default_form_encoding :
    (transportCall
      { url := "https://x/y",
        body := some (.obj (.cons "a" (.num "1") .nil)) } false =
      { url := "https://x/y?", method := "post",
        headers := [("content-type", "application/x-www-form-urlencoded")],
        body := some "a=1", timeout := 10000 }) ∧
    ∀ (t : RequestSpec) (m : JsObj), t.body = some (.obj m) → t.dataType = none →
      requestBodyStr t = some (queryStr m) ∧ queryStr m = queryStrSpec m := by
  refine ⟨by decide, ?_⟩
  intro t m hb hdt
  refine ⟨?_, queryStr_eq_spec m⟩
  rw [requestBodyStr, hb]
  simp [hdt, jsTruthy, enumProps]

/-- The general encoding law of C6 at a mapping with a dropped pair and a
non-primitive value. -/
theorem c6_default_form_encoding_witness :
    requestBodyStr
      { url := "u",
        body := some (.obj (.cons "a" (.num "1")
          (.cons "drop" .null (.cons "o" (.obj (.cons "b" (.num "2") .nil)) .nil)))) }
      = some "a=1&o=\x7b\x22b\x22:2\x7d" := by
  have h := c6_default_form_encoding.2
    { url := "u",
      body := some (.obj (.cons "a" (.num "1")
        (.cons "drop" .null (.cons "o" (.obj (.cons "b" (.num "2") .nil)) .nil)))) }
    (.cons "a" (.num "1")
      (.cons "drop" .null (.cons "o" (.obj (.cons "b" (.num "2") .nil)) .nil)))
    rfl rfl
  rw [h.1]
  decide

/-- C7: when the native transport call fails, the transport branch of
`Request` never rejects: the error is swallowed by the `.catch` logger and
the surfaced result is `undefined`, which is what the race then resolves
with whenever the timer has not already fired. -/
theorem c7_transport_failure_resolves_undefined :
    (∀ e : String, transportBranch (.err e) = Except.ok none) ∧
    (∀ (eff lat : ℚ) (e : String), ¬ eff < lat →
      requestRace eff (some lat) (.err e) = .resolved none) := by
  constructor
  · intro e; rfl
  · intro eff lat e h
    simp [requestRace, h, transportBranch]

/-- A concrete failed transport surfacing `undefined`. -/
theorem c7_transport_failure_resolves_undefined_witness :
    requestRace 10000 (some 3) (.err "socket hang up") = .resolved none :=
  c7_transport_failure_resolves_undefined.2 10000 3 "socket hang up" (by norm_num)

/-- C2 as stated is false at a zero timeout: the claim says the effective
timeout on a non-Surge variant equals the caller's timeout, but `t.timeout ?
… : 1e4` treats the given `0` as falsy and substitutes the `1e4` default. -/
theorem c2_counterexample :
    effectiveTimeout (some 0) false = 10000 ∧ (10000 : ℚ) ≠ 0 := by
  constructor
  · rfl
  · norm_num

/-- C2 (amended): whenever the effective timeout elapses before the native
transport settles, `Request` settles with the rejection `当前请求已超时`
rather than hanging — where the effective timeout is the caller's timeout
divided by 1000 on Surge and unchanged elsewhere for a nonzero caller
timeout, and the default `1e4` when the timeout is absent or zero. -/
theorem c2_timeout_race_amended :
    (∀ s : Bool, effectiveTimeout none s = 10000) ∧
    (∀ q : ℚ, q ≠ 0 → effectiveTimeout (some q) true = q / 1000) ∧
    (∀ q : ℚ, q ≠ 0 → effectiveTimeout (some q) false = q) ∧
    (∀ s : Bool, effectiveTimeout (some 0) s = 10000) ∧
    (∀ (t : RequestSpec) (s : Bool) (latency : Option ℚ) (tr : TransportOutcome),
      (∀ lat, latency = some lat → effectiveTimeout t.timeout s < lat) →
      requestSettle t s latency tr = .rejected timeoutMsg) := by
  refine ⟨fun _ => rfl, ?_, ?_, fun _ => rfl, ?_⟩
  · intro q hq; simp [effectiveTimeout, hq]
  · intro q hq; simp [effectiveTimeout, hq]
  · intro t s latency tr h
    rcases latency with _ | lat
    · rfl
    · simp [requestSettle, requestRace, h lat rfl]

/-- A 50ms timeout against a 60ms transport rejects with the timeout
failure; a Surge timeout of 500 is half a second. -/
theorem c2_timeout_race_amended_witness :
    requestSettle { url := "https://x/y", timeout := some 50 } false (some 60)
        (.ok "late") = .rejected timeoutMsg ∧
    effectiveTimeout (some 500) true = 500 / 1000 :=
  ⟨c2_timeout_race_amended.2.2.2.2 _ false (some 60) (.ok "late")
      (by intro lat h; cases h; norm_num [effectiveTimeout]),
    c2_timeout_race_amended.2.1 500 (by norm_num)⟩

/-! ## The environment detector: C9 -/

/-- C9 as stated is false: with both a module system and a proxy-variant
global (`$loon`) present, the detector reports Node.js, because the module
probe sits before the `$task`/`$loon`/`$rocket` probes. -/
theorem c9_counterexample :
    getEnv ⟨false, false, true, false, true, false⟩ = some "Node.js" ∧
    getEnv ⟨false, false, true, false, true, false⟩ ≠ some "Loon" := by
  constructor
  · rfl
  · decide

/-- C9 (amended): the detector probes in the fixed source order Surge,
Stash, module-system, Quantumult X, Loon, Shadowrocket and returns the first
match — so only the `$environment`-based Surge/Stash markers outrank the
module-system signal, while `$task`/`$loon`/`$rocket` are outranked by it —
and an environment with no marker yields the explicit `none` (the
`undefined` variant) rather than a fault. -/
theorem c9_detector_order_amended :
    (∀ a : Ambient, a.surgeMarker = true → getEnv a = some "Surge") ∧
    (∀ a : Ambient, a.surgeMarker = false → a.stashMarker = true →
      getEnv a = some "Stash") ∧
    (∀ a : Ambient, a.surgeMarker = false → a.stashMarker = false →
      a.moduleMarker = true → getEnv a = some "Node.js") ∧
    (∀ a : Ambient, a.surgeMarker = false → a.stashMarker = false →
      a.moduleMarker = false → a.taskMarker = true → getEnv a = some "Quantumult X") ∧
    (∀ a : Ambient, a.surgeMarker = false → a.stashMarker = false →
      a.moduleMarker = false → a.taskMarker = false → a.loonMarker = true →
      getEnv a = some "Loon") ∧
    (∀ a : Ambient, a.surgeMarker = false → a.stashMarker = false →
      a.moduleMarker = false → a.taskMarker = false → a.loonMarker = false →
      a.rocketMarker = true → getEnv a = some "Shadowrocket") ∧
    (∀ a : Ambient, a.surgeMarker = false → a.stashMarker = false →
      a.moduleMarker = false → a.taskMarker = false → a.loonMarker = false →
      a.rocketMarker = false → getEnv a = none) := by
  refine ⟨?_, ?_, ?_, ?_, ?_, ?_, ?_⟩ <;>
    · intro a
      rcases a with ⟨s1, s2, s3, s4, s5, s6⟩
      intros
      subst_vars
      rfl

/-- The corrected priority at a Node.js-with-Loon environment, and the
explicit no-marker result. -/
theorem c9_detector_order_amended_witness :
    getEnv ⟨false, false, true, true, true, true⟩ = some "Node.js" ∧
    getEnv ⟨false, false, false, false, false, false⟩ = none :=
  ⟨c9_detector_order_amended.2.2.1 ⟨false, false, true, true, true, true⟩ rfl rfl rfl,
    (c9_detector_order_amended.2.2.2.2.2.2) ⟨false, false, false, false, false, false⟩
      rfl rfl rfl rfl rfl rfl⟩

/-! ## The orchestrator: C1, C8, C10 -/

lemma perAccountLine_isSome {o : AccountOutcome}
    (h : authGate o = true ∨ o.userName.isSome = true) :
    (perAccountLine o).isSome = true := by
  rcases h with h | h
  · rw [perAccountLine, if_pos h]
    rfl
  · rw [perAccountLine]
    split
    · rfl
    · obtain ⟨n, hn⟩ := Option.isSome_iff_exists.mp h
      rw [hn]
      rfl

/-- The loop runs to completion exactly when no gate-failing account is
nameless, accumulating one line per account and one success per passing
gate. -/
lemma mainLoop_run : ∀ (us : List AccountOutcome) (acc : RunSummary),
    (∀ x ∈ us, authGate x = true ∨ x.userName.isSome = true) →
    mainLoop acc us
      = some ⟨acc.notifyMsg ++ us.filterMap perAccountLine,
              acc.succCount + us.countP (fun o => authGate o)⟩
  | [], acc, _ => by simp [mainLoop, List.countP, List.countP.go]
  | o :: rest, acc, h => by
      obtain ⟨line, hline⟩ := Option.isSome_iff_exists.mp
        (perAccountLine_isSome (h o (List.mem_cons_self o rest)))
      rw [mainLoop, hline]
      simp only []
      rw [mainLoop_run rest _ (fun x hx => h x (List.mem_cons_of_mem o hx))]
      rw [List.filterMap_cons, hline]
      simp only [Option.some.injEq, RunSummary.mk.injEq]
      constructor
      · simp [List.append_assoc]
      · rw [List.countP_cons]
        rcases ha : authGate o <;> simp [ha] <;> omega

lemma filterMap_isSome_length : ∀ (us : List AccountOutcome),
    (∀ x ∈ us, (perAccountLine x).isSome = true) →
    (us.filterMap perAccountLine).length = us.length
  | [], _ => rfl
  | o :: rest, h => by
      obtain ⟨line, hline⟩ := Option.isSome_iff_exists.mp
        (h o (List.mem_cons_self o rest))
      rw [List.filterMap_cons, hline]
      simp only [List.length_cons]
      rw [filterMap_isSome_length rest (fun x hx => h x (List.mem_cons_of_mem o hx))]

/-- C1 (counterexample): a three-account batch whose middle account both
fails the `getBean` gate and carries no `userName`: composing its failure
line evaluates the unbound `index`, the `ReferenceError` is rethrown by
`main`'s catch, and the run aborts — no third account, no lines, no title —
in exactly the scenario the claim says never aborts. -/
theorem c1_counterexample :
    authGate c1ceGood = true ∧ authGate c1ceBad = false ∧
    c1ceBad.userName = none ∧
    mainRun [c1ceGood, c1ceBad, c1ceGood] = none := by decide

/-- C1 (amended): over a stored account list in which exactly one account
fails its credential/login resolution (the `getBean` gate), every other
account passes, and the failing account's record carries a display name —
so its `DoubleLog` failure line never touches the unbound `index` — the
loop completes: it appends exactly one summary line per account, in stored
order, including all the accounts after the failed one, counts N−1
successes, and the aggregate title reports N accounts with N−1 succeeded.
A gate-failing account without a stored name instead aborts the whole
batch with a rethrown `ReferenceError`. -/
theorem c1_batch_isolation_amended (pre post : List AccountOutcome)
    (u : AccountOutcome)
    (hu : authGate u = false) (huname : u.userName.isSome = true)
    (hpre : ∀ x ∈ pre, authGate x = true)
    (hpost : ∀ x ∈ post, authGate x = true) :
    ∃ s : RunSummary,
      mainRun (pre ++ u :: post)
        = some (s, mainTitle (pre ++ u :: post).length
            ((pre ++ u :: post).length - 1)) ∧
      s.notifyMsg = (pre ++ u :: post).filterMap perAccountLine ∧
      s.notifyMsg.length = (pre ++ u :: post).length ∧
      s.succCount = (pre ++ u :: post).length - 1 := by
  have hall : ∀ x ∈ pre ++ u :: post, authGate x = true ∨ x.userName.isSome = true := by
    intro x hx
    rcases List.mem_append.mp hx with hx | hx
    · exact Or.inl (hpre x hx)
    · rcases List.mem_cons.mp hx with rfl | hx
      · exact Or.inr huname
      · exact Or.inl (hpost x hx)
  have hcount : (pre ++ u :: post).countP (fun o => authGate o)
      = (pre ++ u :: post).length - 1 := by
    rw [List.countP_append, List.countP_cons]
    have h1 : pre.countP (fun o => authGate o) = pre.length :=
      List.countP_eq_length.mpr (fun a ha => by simpa using hpre a ha)
    have h2 : post.countP (fun o => authGate o) = post.length :=
      List.countP_eq_length.mpr (fun a ha => by simpa using hpost a ha)
    rw [h1, h2, hu]
    simp [List.length_append]
  have hlen : ((pre ++ u :: post).filterMap perAccountLine).length
      = (pre ++ u :: post).length :=
    filterMap_isSome_length _ (fun x hx => perAccountLine_isSome (hall x hx))
  have hloop := mainLoop_run (pre ++ u :: post) ⟨[], 0⟩ hall
  refine ⟨⟨(pre ++ u :: post).filterMap perAccountLine,
    (pre ++ u :: post).length - 1⟩, ?_, rfl, hlen, rfl⟩
  rw [mainRun, hloop]
  simp only [Option.map_some', Option.some.injEq, Prod.mk.injEq]
  constructor
  · simp only [RunSummary.mk.injEq]
    exact ⟨by simp, by rw [hcount]; exact Nat.zero_add _⟩
  · rw [show (0 + (pre ++ u :: post).countP (fun o => authGate o))
        = (pre ++ u :: post).length - 1 by rw [hcount]; exact Nat.zero_add _]

/-- A three-account batch whose middle account fails the gate but carries a
name: three lines, two successes, processing continued past the failure. -/
theorem c1_batch_isolation_amended_witness :
    (authGate c1ceGood = true ∧
      authGate ⟨some "b", none, some 2, true, true, true, true, true, true,
        true, false, true, false, true, true, some 9, some 2⟩ = false ∧
      (⟨some "b", none, some 2, true, true, true, true, true, true,
        true, false, true, false, true, true, some 9, some 2⟩
        : AccountOutcome).userName.isSome = true) ∧
    (∃ s : RunSummary,
      mainRun [c1ceGood,
        ⟨some "b", none, some 2, true, true, true, true, true, true,
          true, false, true, false, true, true, some 9, some 2⟩,
        c1ceGood]
        = some (s, mainTitle 3 2) ∧
      s.notifyMsg = [c1ceGood,
        ⟨some "b", none, some 2, true, true, true, true, true, true,
          true, false, true, false, true, true, some 9, some 2⟩,
        c1ceGood].filterMap perAccountLine ∧
      s.notifyMsg.length = 3 ∧
      s.succCount = 2) :=
  ⟨⟨by decide, by decide, by decide⟩,
   c1_batch_isolation_amended [c1ceGood] [c1ceGood]
    ⟨some "b", none, some 2, true, true, true, true, true, true,
      true, false, true, false, true, true, some 9, some 2⟩
    (by decide) (by decide) (by decide) (by decide)⟩

lemma runTrace_tags : ∀ (plan : List (Option StepTag × Bool)) (ck : Bool),
    (runTrace ck plan).map Prod.fst = plan.filterMap Prod.fst
  | [], _ => rfl
  | (none, ok) :: rest, ck => by
      show (runTrace (ck && ok) rest).map Prod.fst = _
      rw [runTrace_tags rest]
      rfl
  | (some t, ok) :: rest, ck => by
      show t :: (runTrace (ck && ok) rest).map Prod.fst = _
      rw [runTrace_tags rest]
      rfl

/-- C8 as stated is false: with a passed gate and a failed `signin` — which
flips `ckStatus` to false — the orchestrator still issues the next
site-specific step (the first Alipay task) for the same account, with the
flag already false at the moment of issue. -/
theorem c8_counterexample :
    ((StepTag.doTask 20), false) ∈ runUserTrace
      ⟨some "u", some 5, some 2, false, true, true, true, true, false, true,
        false, true, false, true, true, some 9, some 2⟩ := by
  decide

/-- C8 (amended): the only short-circuit on `ckStatus` is the single gate
`main` evaluates right after the opening `getBean()`: an account whose flag
is false at that gate is issued nothing beyond the two opening balance
calls, while an account that passes the gate is issued every remaining step
— signin, the three tasks, the exchange loop, pool sign-in, bet and the
closing balance pair — regardless of later flag flips. -/
theorem c8_gate_only_short_circuit (o : AccountOutcome) :
    (authGate o = false →
      runUserTrace o = [(.bean 1 1, true), (.bean 1 2, o.bean1a.isSome)]) ∧
    (authGate o = true →
      (runUserTrace o).map Prod.fst =
        [.bean 1 1, .bean 1 2, .signin, .doTask 20, .doTask 32, .doTask 19]
          ++ List.replicate (stepCallCount o) .stepEx
          ++ [.poolSign, .bet, .bean 2 1, .bean 2 2]) := by
  constructor
  · intro h
    simp [runUserTrace, userPlan, h, getBeanPlan, runTrace, initCkStatus]
  · intro h
    have hplan : userPlan o = getBeanPlan 1 o.bean1a o.bean2a ++ workPlan o := by
      rw [userPlan, h]
      simp
    rw [runUserTrace, hplan, runTrace_tags]
    rw [List.filterMap_append]
    rw [show (getBeanPlan 1 o.bean1a o.bean2a).filterMap Prod.fst
        = [.bean 1 1, .bean 1 2] from rfl]
    rw [workPlan, stepCallCount]
    by_cases h1 : o.step1Ok ∧ o.step1Lim
    · simp [stepLoopPlan, h1, getBeanPlan, List.filterMap_append]
    · by_cases h2 : o.step2Ok ∧ o.step2Lim
      · simp [stepLoopPlan, h1, h2, getBeanPlan, List.filterMap_append]
      · simp [stepLoopPlan, h1, h2, getBeanPlan, List.filterMap_append]

/-- A gate-failing account is issued only the two balance calls; a
gate-passing account with a failing signin is still issued everything after
it. -/
theorem c8_gate_only_short_circuit_witness :
    runUserTrace ⟨some "u", none, some 2, true, true, true, true, true, true, true,
        false, true, false, true, true, some 9, some 2⟩ =
      [(.bean 1 1, true), (.bean 1 2, false)] ∧
    (runUserTrace ⟨some "u", some 5, some 2, false, true, true, true, true, true,
        true, false, true, false, true, true, some 9, some 2⟩).map Prod.fst =
      [.bean 1 1, .bean 1 2, .signin, .doTask 20, .doTask 32, .doTask 19,
        .stepEx, .poolSign, .bet, .bean 2 1, .bean 2 2] := by
  constructor
  · have h := (c8_gate_only_short_circuit
      ⟨some "u", none, some 2, true, true, true, true, true, true, true,
        false, true, false, true, true, some 9, some 2⟩).1 rfl
    rw [h]
    rfl
  · have h := (c8_gate_only_short_circuit
      ⟨some "u", some 5, some 2, false, true, true, true, true, true, true,
        false, true, false, true, true, some 9, some 2⟩).2 rfl
    rw [h]
    decide

lemma chain_weaken_head {tail : List Bool} {c c2 : Bool} (hle : c2 ≤ c)
    (h : List.Chain' (fun a b => b ≤ a) (c2 :: tail)) :
    List.Chain' (fun a b => b ≤ a) (c :: tail) := by
  rcases tail with _ | ⟨x, xs⟩
  · simp
  · rw [List.chain'_cons] at h ⊢
    exact ⟨le_trans h.1 hle, h.2⟩

lemma bool_and_le_left (a b : Bool) : (a && b) ≤ a := by
  rcases a <;> rcases b <;> decide

lemma runTrace_flags_chain : ∀ (plan : List (Option StepTag × Bool)) (ck : Bool),
    List.Chain' (fun a b => b ≤ a) (ck :: (runTrace ck plan).map Prod.snd)
  | [], ck => by simp [runTrace]
  | (none, ok) :: rest, ck => by
      have ih := runTrace_flags_chain rest (ck && ok)
      show List.Chain' _ (ck :: (runTrace (ck && ok) rest).map Prod.snd)
      exact chain_weaken_head (bool_and_le_left ck ok) ih
  | (some t, ok) :: rest, ck => by
      have ih := runTrace_flags_chain rest (ck && ok)
      show List.Chain' _ (ck :: ck :: (runTrace (ck && ok) rest).map Prod.snd)
      rw [List.chain'_cons]
      exact ⟨le_refl ck, chain_weaken_head (bool_and_le_left ck ok) ih⟩

/-- C10: `ckStatus` is monotone — it starts `true` at construction and, at
every issued call of an account's run, the flag's successive values never
increase: every workflow outcome either leaves the flag or clears it, and
nothing ever sets it back to `true`. -/
theorem c10_ckStatus_monotone :
    initCkStatus = true ∧
    ∀ o : AccountOutcome, List.Chain' (fun a b => b ≤ a) (ckStates o) :=
  ⟨rfl, fun o => runTrace_flags_chain (userPlan o) initCkStatus⟩

/-! ## The JSON codec round-trip

Parsing a rendered value recovers it, for every well-formed value.  The
development follows the usual codec-inverse structure: escape inversion for
strings, a shape characterisation for numerals, then a fuel-indexed mutual
induction over values. -/

lemma hexVal_hexChar : ∀ n < 16, hexVal (hexChar n) = some n := by decide

lemma jsonParseStr_cons_plain {c : Char} (rest : List Char)
    (hq : c ≠ '"') (hb : c ≠ '\\') (hctl : ¬ c.toNat < 32) :
    jsonParseStr (c :: rest)
      = (jsonParseStr rest).bind (fun p => some (c :: p.1, p.2)) := by
  rw [jsonParseStr.eq_def]
  simp [hq, hb, hctl]

lemma jsonParseStr_escChar (c : Char) (rest : List Char) :
    jsonParseStr (jsonEscChar c ++ rest)
      = (jsonParseStr rest).bind (fun p => some (c :: p.1, p.2)) := by
  by_cases h1 : c = '"'
  · subst h1; simp [jsonEscChar, jsonParseStr]
  by_cases h2 : c = '\\'
  · subst h2; simp [jsonEscChar, jsonParseStr]
  by_cases h3 : c = Char.ofNat 8
  · subst h3; simp [jsonEscChar, jsonParseStr]
  by_cases h4 : c = Char.ofNat 9
  · subst h4; simp [jsonEscChar, jsonParseStr]
  by_cases h5 : c = Char.ofNat 10
  · subst h5; simp [jsonEscChar, jsonParseStr]
  by_cases h6 : c = Char.ofNat 12
  · subst h6; simp [jsonEscChar, jsonParseStr]
  by_cases h7 : c = Char.ofNat 13
  · subst h7; simp [jsonEscChar, jsonParseStr]
  by_cases h8 : c.toNat < 32
  · have hesc : jsonEscChar c
        = ['\\', 'u', '0', '0', hexChar (c.toNat / 16), hexChar (c.toNat % 16)] := by
      simp [jsonEscChar, h1, h2, h3, h4, h5, h6, h7, h8]
    rw [hesc]
    show jsonParseStr ('\\' :: 'u' :: '0' :: '0' :: hexChar (c.toNat / 16)
        :: hexChar (c.toNat % 16) :: rest) = _
    have hd1 : hexVal '0' = some 0 := by decide
    have hd2 := hexVal_hexChar (c.toNat / 16) (by omega)
    have hd3 := hexVal_hexChar (c.toNat % 16) (Nat.mod_lt _ (by omega))
    have harith : ((0 * 16 + 0) * 16 + c.toNat / 16) * 16 + c.toNat % 16 = c.toNat := by
      omega
    simp only [jsonParseStr, hd1, hd2, hd3, Option.bind_eq_bind, Option.some_bind, harith,
      Char.ofNat_toNat]
    rfl
  · have hesc : jsonEscChar c = [c] := by
      simp [jsonEscChar, h1, h2, h3, h4, h5, h6, h7, h8]
    rw [hesc]
    exact jsonParseStr_cons_plain rest h1 h2 h8

lemma jsonParseStr_escStr : ∀ (cs rest : List Char),
    jsonParseStr (jsonEscStr cs ++ '"' :: rest) = some (cs, rest)
  | [], rest => by simp [jsonEscStr, jsonParseStr]
  | c :: cs, rest => by
      have ih := jsonParseStr_escStr cs rest
      show jsonParseStr ((jsonEscChar c ++ jsonEscStr cs) ++ '"' :: rest) = _
      rw [List.append_assoc, jsonParseStr_escChar, ih]
      rfl

lemma digit_ne {c : Char} (h : c.isDigit = true) :
    c ≠ '-' ∧ c ≠ '.' ∧ c ≠ 'e' ∧ c ≠ 'E' ∧ c ≠ '+' := by
  refine ⟨?_, ?_, ?_, ?_, ?_⟩ <;>
    · intro hc
      subst hc
      exact absurd h (by decide)

lemma digitRun_stop (rest : List Char)
    (h : ∀ c cs, rest = c :: cs → c.isDigit = false) :
    digitRun rest = ([], rest) := by
  cases rest with
  | nil => rfl
  | cons c cs => simp [digitRun, h c cs rfl]

lemma digitRun_append (ds rest : List Char)
    (hds : ∀ c ∈ ds, c.isDigit = true)
    (h : ∀ c cs, rest = c :: cs → c.isDigit = false) :
    digitRun (ds ++ rest) = (ds, rest) := by
  induction ds with
  | nil => simpa using digitRun_stop rest h
  | cons c t ih =>
      have hc := hds c (by simp)
      have ht := ih (fun x hx => hds x (by simp [hx]))
      simp [digitRun, hc, ht]

lemma digitRun_fst_digits : ∀ (cs : List Char), ∀ c ∈ (digitRun cs).1, c.isDigit = true
  | [], c => by simp [digitRun]
  | x :: cs, c => by
      by_cases hx : x.isDigit
      · simp only [digitRun, hx, if_pos]
        intro hc
        rcases List.mem_cons.mp hc with rfl | hc
        · exact hx
        · exact digitRun_fst_digits cs c hc
      · simp [digitRun, hx]

lemma numDelim_not_digit {rest : List Char} (h : numDelim rest = true) :
    ∀ c cs, rest = c :: cs → c.isDigit = false := by
  intro c cs hrest
  subst hrest
  simp only [numDelim, decide_eq_true_eq] at h
  cases hcd : c.isDigit
  · rfl
  · exact absurd (Or.inl hcd) h

lemma numDelim_head {c : Char} {cs : List Char} (h : numDelim (c :: cs) = true) :
    c.isDigit = false ∧ c ≠ '.' ∧ c ≠ 'e' ∧ c ≠ 'E' := by
  have h1 := numDelim_not_digit h c cs rfl
  simp only [numDelim, decide_eq_true_eq] at h
  push_neg at h
  exact ⟨h1, h.2.1, h.2.2.1, h.2.2.2⟩

/-- The head of the material following the integer part can never be a
digit: it is `.`/`e`/`E` or the delimiter. -/
lemma tail_head_not_digit {fp ep rest : List Char}
    (hfp : fracShape fp) (hep : expShape ep) (hrest : numDelim rest = true) :
    ∀ c cs, fp ++ ep ++ rest = c :: cs → c.isDigit = false := by
  intro c cs heq
  rcases hfp with rfl | ⟨d, ds, rfl, hd, hds⟩
  · rcases hep with rfl | ⟨e, sgn, d, ds, rfl, he, hsgn, hd, hds⟩
    · simp only [List.nil_append] at heq
      exact numDelim_not_digit hrest c cs heq
    · simp only [List.nil_append, List.cons_append] at heq
      cases heq
      rcases he with rfl | rfl <;> rfl
  · simp only [List.cons_append] at heq
    cases heq
    rfl

/-- The head of the material following the fraction part is `e`/`E` or the
delimiter — never a digit. -/
lemma exp_head_not_digit {ep rest : List Char}
    (hep : expShape ep) (hrest : numDelim rest = true) :
    ∀ c cs, ep ++ rest = c :: cs → c.isDigit = false := by
  intro c cs heq
  rcases hep with rfl | ⟨e, sgn, d, ds, rfl, he, hsgn, hd, hds⟩
  · simp only [List.nil_append] at heq
    exact numDelim_not_digit hrest c cs heq
  · simp only [List.cons_append] at heq
    cases heq
    rcases he with rfl | rfl <;> rfl

lemma parseSign_shape {sgn : List Char} (k : List Char) (hsgn : sgn = [] ∨ sgn = ['-'])
    (hk : ∀ c cs, k = c :: cs → c.isDigit = true) :
    parseSign (sgn ++ k) = (sgn, k) := by
  rcases hsgn with rfl | rfl
  · rcases k with _ | ⟨c, cs⟩
    · rfl
    · have hc := hk c cs rfl
      have hne := (digit_ne hc).1
      simp [parseSign, hne]
  · simp [parseSign]

lemma parseIntPart_shape {ip : List Char} (k : List Char) (hip : intShape ip)
    (hk : ∀ c cs, k = c :: cs → c.isDigit = false) :
    parseIntPart (ip ++ k) = some (ip, k) := by
  rcases hip with rfl | ⟨c, cs2, rfl, hcd, hc0, hcs2⟩
  · rfl
  · show parseIntPart (c :: (cs2 ++ k)) = _
    rw [parseIntPart]
    rw [if_neg hc0, if_pos hcd]
    simp [digitRun_append cs2 k hcs2 hk]

lemma parseFracPart_shape {fp : List Char} (k : List Char) (hfp : fracShape fp)
    (hk : ∀ c cs, k = c :: cs → c.isDigit = false ∧ c ≠ '.') :
    parseFracPart (fp ++ k) = some (fp, k) := by
  rcases hfp with rfl | ⟨d, ds, rfl, hd, hds⟩
  · rcases k with _ | ⟨c, cs⟩
    · rfl
    · have hc := (hk c cs rfl).2
      simp [parseFracPart, hc]
  · show parseFracPart ('.' :: (d :: ds ++ k)) = _
    rw [parseFracPart]
    rw [if_pos rfl]
    have hrun : digitRun (d :: (ds ++ k)) = (d :: ds, k) := by
      have hall : ∀ x ∈ d :: ds, x.isDigit = true := by
        intro x hx
        rcases List.mem_cons.mp hx with rfl | hx
        · exact hd
        · exact hds x hx
      exact digitRun_append (d :: ds) k hall (fun c cs h => (hk c cs h).1)
    simp [hrun]

lemma parseExpPart_shape {ep : List Char} (k : List Char) (hep : expShape ep)
    (hk : numDelim k = true) :
    parseExpPart (ep ++ k) = (ep, k) := by
  rcases hep with rfl | ⟨e, sgn, d, ds, rfl, he, hsgn, hd, hds⟩
  · rcases k with _ | ⟨c1, k1⟩
    · rfl
    · obtain ⟨_, _, hce, hcE⟩ := numDelim_head hk
      rcases k1 with _ | ⟨c2, k2⟩
      · rfl
      · show parseExpPart (c1 :: c2 :: k2) = ([], c1 :: c2 :: k2)
        rw [parseExpPart]
        rw [if_neg (by simp [hce, hcE])]
  · have hds' : ∀ x ∈ d :: ds, x.isDigit = true := by
      intro x hx
      rcases List.mem_cons.mp hx with rfl | hx
      · exact hd
      · exact hds x hx
    have hrun : digitRun (d :: (ds ++ k)) = (d :: ds, k) :=
      digitRun_append (d :: ds) k hds' (numDelim_not_digit hk)
    rcases hsgn with rfl | rfl | rfl
    · show parseExpPart (e :: d :: (ds ++ k)) = (e :: d :: ds, k)
      rw [parseExpPart]
      have hnd := digit_ne hd
      rw [if_pos he, if_neg (by simp [hnd.2.2.2.2, hnd.1])]
      simp [hrun]
    · show parseExpPart (e :: '+' :: (d :: (ds ++ k))) = (e :: '+' :: d :: ds, k)
      rw [parseExpPart]
      rw [if_pos he, if_pos (by simp)]
      simp [hrun]
    · show parseExpPart (e :: '-' :: (d :: (ds ++ k))) = (e :: '-' :: d :: ds, k)
      rw [parseExpPart]
      rw [if_pos he, if_pos (by simp)]
      simp [hrun]

lemma jsonParseNum_shape {cs : List Char} (rest : List Char) (hs : numShape cs)
    (hrest : numDelim rest = true) :
    jsonParseNum (cs ++ rest) = some (cs, rest) := by
  obtain ⟨sgn, ip, fp, ep, rfl, hsgn, hip, hfp, hep⟩ := hs
  have hip_head : ∀ c cs2, ip ++ (fp ++ ep ++ rest) = c :: cs2 → c.isDigit = true := by
    intro c cs2 heq
    rcases hip with rfl | ⟨x, xs, rfl, hxd, _, _⟩
    · simp only [List.cons_append] at heq
      cases heq
      rfl
    · simp only [List.cons_append] at heq
      cases heq
      exact hxd
  have h1 : parseSign ((sgn ++ ip ++ fp ++ ep) ++ rest)
      = (sgn, ip ++ (fp ++ ep ++ rest)) := by
    have := @parseSign_shape sgn (ip ++ (fp ++ ep ++ rest)) hsgn hip_head
    simpa [List.append_assoc] using this
  have h2 : parseIntPart (ip ++ (fp ++ ep ++ rest)) = some (ip, fp ++ (ep ++ rest)) := by
    have := @parseIntPart_shape ip (fp ++ ep ++ rest) hip
      (tail_head_not_digit hfp hep hrest)
    simpa [List.append_assoc] using this
  have h3 : parseFracPart (fp ++ (ep ++ rest)) = some (fp, ep ++ rest) := by
    refine @parseFracPart_shape fp (ep ++ rest) hfp ?_
    intro c cs2 heq
    refine ⟨exp_head_not_digit hep hrest c cs2 heq, ?_⟩
    rcases hep with rfl | ⟨e, sgn2, d, ds, rfl, he, _, _, _⟩
    · simp only [List.nil_append] at heq
      obtain ⟨_, hdot, _, _⟩ := numDelim_head (heq ▸ hrest)
      exact hdot
    · simp only [List.cons_append] at heq
      cases heq
      rcases he with rfl | rfl <;> decide
  have h4 : parseExpPart (ep ++ rest) = (ep, rest) := parseExpPart_shape rest hep hrest
  show jsonParseNum ((sgn ++ ip ++ fp ++ ep) ++ rest) = _
  rw [jsonParseNum, h1]
  simp only [h2, h3, Option.bind_eq_bind, Option.some_bind, h4]

lemma parseSign_spec (cs : List Char) :
    ∃ sgn r, parseSign cs = (sgn, r) ∧ (sgn = [] ∨ sgn = ['-']) := by
  rcases cs with _ | ⟨c, r⟩
  · exact ⟨[], [], rfl, Or.inl rfl⟩
  · by_cases hc : c = '-'
    · subst hc
      exact ⟨['-'], r, by simp [parseSign], Or.inr rfl⟩
    · exact ⟨[], c :: r, by simp [parseSign, hc], Or.inl rfl⟩

lemma parseIntPart_spec {cs ip r : List Char} (h : parseIntPart cs = some (ip, r)) :
    intShape ip := by
  rcases cs with _ | ⟨c, r0⟩
  · exact absurd h (by simp [parseIntPart])
  · rw [parseIntPart] at h
    by_cases hc : c = '0'
    · rw [if_pos hc] at h
      simp only [Option.some.injEq, Prod.mk.injEq] at h
      exact Or.inl h.1.symm
    · rw [if_neg hc] at h
      by_cases hd : c.isDigit
      · rw [if_pos hd] at h
        simp only [Option.some.injEq, Prod.mk.injEq] at h
        refine Or.inr ⟨c, (digitRun r0).1, h.1.symm, hd, hc, digitRun_fst_digits r0⟩
      · rw [if_neg hd] at h
        exact absurd h (by simp)

lemma parseFracPart_spec {cs fp r : List Char} (h : parseFracPart cs = some (fp, r)) :
    fracShape fp := by
  rcases cs with _ | ⟨c, r0⟩
  · rw [parseFracPart] at h
    simp only [Option.some.injEq, Prod.mk.injEq] at h
    exact Or.inl h.1.symm
  · rw [parseFracPart] at h
    by_cases hc : c = '.'
    · rw [if_pos hc] at h
      simp only [] at h
      rcases hrun : (digitRun r0).1 with _ | ⟨d, ds⟩
      · rw [hrun] at h
        exact absurd h (by simp)
      · rw [hrun] at h
        simp only [List.isEmpty_cons, Bool.false_eq_true, if_false, Option.some.injEq,
          Prod.mk.injEq] at h
        refine Or.inr ⟨d, ds, ?_, ?_, ?_⟩
        · rw [← h.1]
        · exact digitRun_fst_digits r0 d (by simp [hrun])
        · intro x hx
          exact digitRun_fst_digits r0 x (by simp [hrun, hx])
    · rw [if_neg hc] at h
      simp only [Option.some.injEq, Prod.mk.injEq] at h
      exact Or.inl h.1.symm

lemma parseExpPart_spec (cs : List Char) : expShape (parseExpPart cs).1 := by
  rcases cs with _ | ⟨e, cs1⟩
  · exact Or.inl rfl
  · rcases cs1 with _ | ⟨s, r1⟩
    · exact Or.inl rfl
    · rw [parseExpPart]
      by_cases he : e = 'e' ∨ e = 'E'
      · rw [if_pos he]
        by_cases hs : s = '+' ∨ s = '-'
        · rw [if_pos hs]
          rcases hrun : (digitRun r1).1 with _ | ⟨d, ds⟩
          · simp only [hrun, List.isEmpty_nil, if_pos]
            exact Or.inl rfl
          · simp only [hrun, List.isEmpty_cons, Bool.false_eq_true, if_false]
            refine Or.inr ⟨e, [s], d, ds, by simp, he, ?_, ?_, ?_⟩
            · rcases hs with rfl | rfl
              · exact Or.inr (Or.inl rfl)
              · exact Or.inr (Or.inr rfl)
            · exact digitRun_fst_digits r1 d (by simp [hrun])
            · intro x hx
              exact digitRun_fst_digits r1 x (by simp [hrun, hx])
        · rw [if_neg hs]
          rcases hrun : (digitRun (s :: r1)).1 with _ | ⟨d, ds⟩
          · simp only [hrun, List.isEmpty_nil, if_pos]
            exact Or.inl rfl
          · simp only [hrun, List.isEmpty_cons, Bool.false_eq_true, if_false]
            refine Or.inr ⟨e, [], d, ds, by simp, he, Or.inl rfl, ?_, ?_⟩
            · exact digitRun_fst_digits (s :: r1) d (by simp [hrun])
            · intro x hx
              exact digitRun_fst_digits (s :: r1) x (by simp [hrun, hx])
      · rw [if_neg he]
        exact Or.inl rfl

lemma jsonParseNum_shape_of {cs ds r : List Char}
    (h : jsonParseNum cs = some (ds, r)) : numShape ds := by
  rw [jsonParseNum] at h
  obtain ⟨sgn, r1, hps, hsgn⟩ := parseSign_spec cs
  rw [hps] at h
  simp only [] at h
  rcases hip : parseIntPart r1 with _ | ⟨ip, r2⟩
  · rw [hip] at h
    exact absurd h (by simp)
  · rw [hip] at h
    simp only [Option.bind_eq_bind, Option.some_bind] at h
    rcases hfp : parseFracPart r2 with _ | ⟨fp, r3⟩
    · rw [hfp] at h
      exact absurd h (by simp)
    · rw [hfp] at h
      simp only [Option.bind_eq_bind, Option.some_bind, Option.some.injEq,
        Prod.mk.injEq] at h
      refine ⟨sgn, ip, fp, (parseExpPart r3).1, ?_, hsgn,
        parseIntPart_spec hip, parseFracPart_spec hfp, parseExpPart_spec r3⟩
      rw [← h.1]

lemma numWF_shape {s : String} (h : numWF s = true) : numShape s.data := by
  simp only [numWF, decide_eq_true_eq] at h
  exact jsonParseNum_shape_of h

lemma numWF_parse {s : String} (h : numWF s = true) (rest : List Char)
    (hrest : numDelim rest = true) :
    jsonParseNum (s.data ++ rest) = some (s.data, rest) :=
  jsonParseNum_shape rest (numWF_shape h) hrest

lemma jsonParseNum_wf {cs ds r : List Char} (h : jsonParseNum cs = some (ds, r)) :
    numWF ⟨ds⟩ = true := by
  simp only [numWF, decide_eq_true_eq]
  have hs := jsonParseNum_shape_of h
  simpa using jsonParseNum_shape [] hs rfl

lemma numShape_head {cs : List Char} (h : numShape cs) :
    ∃ c cs2, cs = c :: cs2 ∧ (c = '-' ∨ c.isDigit = true) := by
  obtain ⟨sgn, ip, fp, ep, rfl, hsgn, hip, -, -⟩ := h
  rcases hsgn with rfl | rfl
  · rcases hip with rfl | ⟨c, cs2, rfl, hcd, -, -⟩
    · exact ⟨'0', _, rfl, Or.inr (by decide)⟩
    · exact ⟨c, _, rfl, Or.inr hcd⟩
  · exact ⟨'-', _, rfl, Or.inl rfl⟩

lemma numHead_facts {c : Char} (h : c = '-' ∨ c.isDigit = true) :
    jsonWs c = false ∧ c ≠ 'n' ∧ c ≠ 't' ∧ c ≠ 'f' ∧ c ≠ '"' ∧ c ≠ '[' ∧
      c ≠ '{' ∧ c ≠ ']' ∧ c ≠ '}' := by
  rcases h with rfl | h
  · refine ⟨by decide, by decide, by decide, by decide, by decide, by decide,
      by decide, by decide, by decide⟩
  · have hws : jsonWs c = false := by
      simp only [jsonWs, decide_eq_false_iff_not]
      rintro (rfl | rfl | rfl | rfl) <;> exact absurd h (by decide)
    refine ⟨hws, ?_, ?_, ?_, ?_, ?_, ?_, ?_, ?_⟩ <;>
      · rintro rfl
        exact absurd h (by decide)

lemma wsDrop_not_ws {c : Char} (cs : List Char) (h : jsonWs c = false) :
    wsDrop (c :: cs) = c :: cs := by
  simp [wsDrop, h]

lemma string_eta (s : String) : (⟨s.data⟩ : String) = s := rfl

lemma numWF_ne_nil {s : String} (h : numWF s = true) : s.data ≠ [] := by
  obtain ⟨c, cs2, heq, -⟩ := numShape_head (numWF_shape h)
  simp [heq]

/-- Every rendered well-formed value begins with a character that is not
whitespace and closes no container. -/
lemma jsonRender_head (v : JsValue) (hwf : wfV v = true) :
    ∃ c cs, jsonRender v = c :: cs ∧ jsonWs c = false ∧ c ≠ ']' ∧ c ≠ '}' := by
  cases v with
  | null =>
      refine ⟨'n', _, rfl, ?_, ?_, ?_⟩ <;> decide
  | bool b =>
      cases b
      · refine ⟨'f', _, rfl, ?_, ?_, ?_⟩ <;> decide
      · refine ⟨'t', _, rfl, ?_, ?_, ?_⟩ <;> decide
  | str s =>
      refine ⟨'"', _, rfl, ?_, ?_, ?_⟩ <;> decide
  | arr xs =>
      refine ⟨'[', _, rfl, ?_, ?_, ?_⟩ <;> decide
  | obj fs =>
      refine ⟨'{', _, rfl, ?_, ?_, ?_⟩ <;> decide
  | num s =>
      have hn : numWF s = true := by simpa [wfV] using hwf
      obtain ⟨c, cs2, heq, hc⟩ := numShape_head (numWF_shape hn)
      have hf := numHead_facts hc
      exact ⟨c, cs2, by simpa [jsonRender] using heq, hf.1, hf.2.2.2.2.2.2.2.1,
        hf.2.2.2.2.2.2.2.2⟩

/-- A rendered well-formed value is never the empty character list. -/
lemma jsonRender_ne_nil (v : JsValue) (hwf : wfV v = true) : jsonRender v ≠ [] := by
  obtain ⟨c, cs, heq, -⟩ := jsonRender_head v hwf
  simp [heq]

mutual
lemma fuelV_le_render : ∀ (v : JsValue), wfV v = true →
    fuelV v ≤ (jsonRender v).length
  | .null, _ => by simp [fuelV, jsonRender]
  | .bool b, _ => by cases b <;> simp [fuelV, jsonRender]
  | .num s, h => by
      have hn : numWF s = true := by simpa [wfV] using h
      have hne := numWF_ne_nil hn
      have hlen : 1 ≤ s.data.length := by
        rcases hd : s.data with _ | ⟨c, cs⟩
        · exact absurd hd hne
        · simp
      simpa [fuelV, jsonRender] using hlen
  | .str s, _ => by simp [fuelV, jsonRender, jsonQuote]
  | .arr xs, h => by
      have hx : wfA xs = true := by simpa [wfV] using h
      have hb := fuelA_le_render xs hx
      simp only [fuelV, jsonRender, List.length_cons, List.length_append,
        List.length_singleton]
      omega
  | .obj fs, h => by
      have hx : wfO fs = true := by simpa [wfV] using h
      have hb := fuelO_le_render fs hx
      simp only [fuelV, jsonRender, List.length_cons, List.length_append,
        List.length_singleton]
      omega
lemma fuelA_le_render : ∀ (xs : JsArr), wfA xs = true →
    fuelA xs ≤ (jsonRenderArr xs).length + 1
  | .nil, _ => by simp [fuelA, jsonRenderArr]
  | .cons v .nil, h => by
      have hv : wfV v = true := by
        simp only [wfA, Bool.and_eq_true, decide_eq_true_eq] at h
        exact h.1
      have h1 := fuelV_le_render v hv
      have h2 : 1 ≤ (jsonRender v).length := by
        rcases hd : jsonRender v with _ | ⟨c, cs⟩
        · exact absurd hd (jsonRender_ne_nil v hv)
        · simp
      have hm : Nat.max (fuelV v) (fuelA .nil) ≤ (jsonRender v).length := by
        refine Nat.max_le.mpr ⟨h1, ?_⟩
        simpa [fuelA] using h2
      simp only [fuelA] at hm
      simp only [fuelA, jsonRenderArr]
      omega
  | .cons v (.cons w tl), h => by
      have h2 : wfV v = true ∧ wfA (JsArr.cons w tl) = true := by
        simpa [wfA, Bool.and_eq_true] using h
      have h3 := fuelV_le_render v h2.1
      have h4 := fuelA_le_render (JsArr.cons w tl) h2.2
      have hm : Nat.max (fuelV v) (fuelA (JsArr.cons w tl))
          ≤ (jsonRender v).length + (jsonRenderArr (JsArr.cons w tl)).length + 1 := by
        refine Nat.max_le.mpr ⟨by omega, by omega⟩
      simp only [fuelA] at hm
      simp only [fuelA, jsonRenderArr, List.length_append, List.length_cons]
      omega
lemma fuelO_le_render : ∀ (fs : JsObj), wfO fs = true →
    fuelO fs ≤ (jsonRenderObj fs).length + 1
  | .nil, _ => by simp [fuelO, jsonRenderObj]
  | .cons k v .nil, h => by
      have hv : wfV v = true := by
        simp only [wfO, Bool.and_eq_true, decide_eq_true_eq] at h
        exact h.1
      have h1 := fuelV_le_render v hv
      have hq : 1 ≤ (jsonQuote k).length := by simp [jsonQuote]
      have hm : Nat.max (fuelV v) (fuelO .nil)
          ≤ (jsonQuote k).length + (jsonRender v).length := by
        refine Nat.max_le.mpr ⟨by omega, ?_⟩
        simpa [fuelO] using Nat.le_add_right_of_le hq
      simp only [fuelO] at hm
      simp only [fuelO, jsonRenderObj, List.length_append, List.length_cons]
      omega
  | .cons k v (.cons k2 w tl), h => by
      have h2 : wfV v = true ∧ wfO (JsObj.cons k2 w tl) = true := by
        simpa [wfO, Bool.and_eq_true] using h
      have h3 := fuelV_le_render v h2.1
      have h4 := fuelO_le_render (JsObj.cons k2 w tl) h2.2
      have hm : Nat.max (fuelV v) (fuelO (JsObj.cons k2 w tl))
          ≤ (jsonRender v).length + (jsonRenderObj (JsObj.cons k2 w tl)).length + 1 := by
        refine Nat.max_le.mpr ⟨by omega, by omega⟩
      simp only [fuelO] at hm
      simp only [fuelO, jsonRenderObj, List.length_append, List.length_cons]
      omega
end


lemma fuelV_pos (v : JsValue) : 1 ≤ fuelV v := by
  cases v <;> simp [fuelV]

lemma jsonParseVal_null (f : Nat) (rest : List Char) :
    jsonParseVal (f + 1) (jsonRender .null ++ rest) = some (.null, rest) := by
  show jsonParseVal (f + 1) ('n' :: 'u' :: 'l' :: 'l' :: rest) = _
  rw [jsonParseVal, wsDrop_not_ws ('u' :: 'l' :: 'l' :: rest) (by decide)]
  rfl

lemma jsonParseVal_bool (f : Nat) (b : Bool) (rest : List Char) :
    jsonParseVal (f + 1) (jsonRender (.bool b) ++ rest) = some (.bool b, rest) := by
  cases b
  · show jsonParseVal (f + 1) ('f' :: 'a' :: 'l' :: 's' :: 'e' :: rest) = _
    rw [jsonParseVal, wsDrop_not_ws _ (by decide)]
    rfl
  · show jsonParseVal (f + 1) ('t' :: 'r' :: 'u' :: 'e' :: rest) = _
    rw [jsonParseVal, wsDrop_not_ws _ (by decide)]
    rfl

lemma jsonParseVal_str (f : Nat) (s : String) (rest : List Char) :
    jsonParseVal (f + 1) (jsonRender (.str s) ++ rest) = some (.str s, rest) := by
  show jsonParseVal (f + 1) ('"' :: (jsonEscStr s.data ++ ['"']) ++ rest) = _
  rw [List.cons_append, jsonParseVal, wsDrop_not_ws _ (by decide), List.append_assoc]
  show (do
    let p ← jsonParseStr (jsonEscStr s.data ++ '"' :: rest)
    pure (JsValue.str ⟨p.1⟩, p.2)) = _
  rw [jsonParseStr_escStr]
  rfl

lemma jsonParseVal_num (f : Nat) (s : String) (rest : List Char)
    (hn : numWF s = true) (hrest : numDelim rest = true) :
    jsonParseVal (f + 1) (jsonRender (.num s) ++ rest) = some (.num s, rest) := by
  obtain ⟨c, cs2, heq, hc⟩ := numShape_head (numWF_shape hn)
  have hf := numHead_facts hc
  show jsonParseVal (f + 1) (s.data ++ rest) = _
  rw [jsonParseVal, heq, List.cons_append, wsDrop_not_ws _ hf.1]
  split
  all_goals try (rename_i hx; rw [List.cons.injEq] at hx)
  · exact absurd hx.1 hf.2.1
  · exact absurd hx.1 hf.2.2.1
  · exact absurd hx.1 hf.2.2.2.1
  · exact absurd hx.1 hf.2.2.2.2.1
  · exact absurd hx.1 hf.2.2.2.2.2.1
  · exact absurd hx.1 hf.2.2.2.2.2.2.1
  · obtain ⟨rfl, rfl⟩ := hx
    rw [if_pos hc, ← List.cons_append, ← heq, numWF_parse hn rest hrest]
    rfl
  · rename_i hx
    simp at hx

lemma jsonParseVal_arrNil (f : Nat) (rest : List Char) :
    jsonParseVal (f + 1) (jsonRender (.arr .nil) ++ rest) = some (.arr .nil, rest) := by
  show jsonParseVal (f + 1) ('[' :: ']' :: rest) = _
  rw [jsonParseVal, wsDrop_not_ws _ (by decide)]
  show (match wsDrop (']' :: rest) with
    | ']' :: r2 => some (JsValue.arr .nil, r2)
    | r2 => do
        let p ← jsonParseArr f r2
        pure (JsValue.arr p.1, p.2)) = _
  rw [wsDrop_not_ws _ (by decide)]
  rfl

lemma jsonParseVal_objNil (f : Nat) (rest : List Char) :
    jsonParseVal (f + 1) (jsonRender (.obj .nil) ++ rest) = some (.obj .nil, rest) := by
  show jsonParseVal (f + 1) ('{' :: '}' :: rest) = _
  rw [jsonParseVal, wsDrop_not_ws _ (by decide)]
  show (match wsDrop ('}' :: rest) with
    | '}' :: r2 => some (JsValue.obj .nil, r2)
    | r2 => do
        let p ← jsonParseObj f r2
        pure (JsValue.obj p.1, p.2)) = _
  rw [wsDrop_not_ws _ (by decide)]
  rfl

lemma jsonParseVal_arrCons (f : Nat) (v : JsValue) (tl : JsArr) (rest : List Char)
    (hv : wfV v = true)
    (harr : jsonParseArr f (jsonRenderArr (.cons v tl) ++ ']' :: rest)
      = some (.cons v tl, rest)) :
    jsonParseVal (f + 1) (jsonRender (.arr (.cons v tl)) ++ rest)
      = some (.arr (.cons v tl), rest) := by
  obtain ⟨c, cs, hhead, hws, hbr, -⟩ := jsonRender_head v hv
  have hshape : ∃ t, jsonRenderArr (.cons v tl) = c :: t := by
    cases tl with
    | nil => exact ⟨cs, by simp [jsonRenderArr, hhead]⟩
    | cons w tl2 =>
        exact ⟨cs ++ ',' :: jsonRenderArr (.cons w tl2), by
          simp [jsonRenderArr, hhead]⟩
  obtain ⟨t, ht⟩ := hshape
  show jsonParseVal (f + 1) ('[' :: (jsonRenderArr (.cons v tl) ++ [']']) ++ rest) = _
  rw [List.cons_append, jsonParseVal, wsDrop_not_ws _ (by decide), List.append_assoc]
  show (match wsDrop (jsonRenderArr (.cons v tl) ++ ']' :: rest) with
    | ']' :: r2 => some (JsValue.arr .nil, r2)
    | r2 => do
        let p ← jsonParseArr f r2
        pure (JsValue.arr p.1, p.2)) = _
  rw [ht, List.cons_append, wsDrop_not_ws _ hws]
  split
  · rename_i hx
    rw [List.cons.injEq] at hx
    exact absurd hx.1 hbr
  · rw [← List.cons_append, ← ht, harr]
    rfl

lemma jsonParseVal_objCons (f : Nat) (k : String) (v : JsValue) (tl : JsObj)
    (rest : List Char)
    (hobj : jsonParseObj f (jsonRenderObj (.cons k v tl) ++ '}' :: rest)
      = some (.cons k v tl, rest)) :
    jsonParseVal (f + 1) (jsonRender (.obj (.cons k v tl)) ++ rest)
      = some (.obj (.cons k v tl), rest) := by
  have hshape : ∃ t, jsonRenderObj (.cons k v tl) = '"' :: t := by
    cases tl with
    | nil =>
        exact ⟨jsonEscStr k.data ++ '"' :: ':' :: jsonRender v,
          by simp [jsonRenderObj, jsonQuote]⟩
    | cons k2 w tl2 =>
        exact ⟨jsonEscStr k.data ++ '"' :: ':'
            :: (jsonRender v ++ ',' :: jsonRenderObj (.cons k2 w tl2)),
          by simp [jsonRenderObj, jsonQuote]⟩
  obtain ⟨t, ht⟩ := hshape
  show jsonParseVal (f + 1) ('{' :: (jsonRenderObj (.cons k v tl) ++ ['}']) ++ rest) = _
  rw [List.cons_append, jsonParseVal, wsDrop_not_ws _ (by decide), List.append_assoc]
  show (match wsDrop (jsonRenderObj (.cons k v tl) ++ '}' :: rest) with
    | '}' :: r2 => some (JsValue.obj .nil, r2)
    | r2 => do
        let p ← jsonParseObj f r2
        pure (JsValue.obj p.1, p.2)) = _
  rw [ht, List.cons_append, wsDrop_not_ws _ (by decide)]
  split
  · rename_i hx
    rw [List.cons.injEq] at hx
    exact absurd hx.1 (by decide)
  · rw [← List.cons_append, ← ht, hobj]
    rfl

lemma jsonParseArr_elem (f : Nat) (v : JsValue) (rest2 : List Char)
    (hval : jsonParseVal f (jsonRender v ++ rest2) = some (v, rest2)) :
    jsonParseArr (f + 1) (jsonRender v ++ rest2)
      = (match wsDrop rest2 with
        | ',' :: r2 => do
            let p ← jsonParseArr f r2
            pure (JsArr.cons v p.1, p.2)
        | ']' :: r2 => pure (JsArr.cons v .nil, r2)
        | _ => none) := by
  show (do
    let q ← jsonParseVal f (jsonRender v ++ rest2)
    match wsDrop q.2 with
    | ',' :: r2 => do
        let p ← jsonParseArr f r2
        pure (JsArr.cons q.1 p.1, p.2)
    | ']' :: r2 => pure (JsArr.cons q.1 .nil, r2)
    | _ => none) = _
  rw [hval]
  rfl

lemma jsonParseObj_member (f : Nat) (k : String) (v : JsValue) (rest2 : List Char)
    (hval : jsonParseVal f (jsonRender v ++ rest2) = some (v, rest2)) :
    jsonParseObj (f + 1) (jsonQuote k ++ ':' :: (jsonRender v ++ rest2))
      = (match wsDrop rest2 with
        | ',' :: r4 => do
            let p ← jsonParseObj f r4
            pure (JsObj.cons k v p.1, p.2)
        | '}' :: r4 => pure (JsObj.cons k v .nil, r4)
        | _ => none) := by
  show jsonParseObj (f + 1)
      ('"' :: ((jsonEscStr k.data ++ ['"']) ++ (':' :: (jsonRender v ++ rest2)))) = _
  rw [jsonParseObj, wsDrop_not_ws _ (by decide), List.append_assoc]
  show (do
    let p ← jsonParseStr (jsonEscStr k.data ++ '"' :: (':' :: (jsonRender v ++ rest2)))
    match wsDrop p.2 with
    | ':' :: r2 => do
        let q ← jsonParseVal f r2
        (match wsDrop q.2 with
        | ',' :: r4 => do
            let w ← jsonParseObj f r4
            pure (JsObj.cons ⟨p.1⟩ q.1 w.1, w.2)
        | '}' :: r4 => pure (JsObj.cons ⟨p.1⟩ q.1 .nil, r4)
        | _ => none)
    | _ => none) = _
  rw [jsonParseStr_escStr]
  show (match wsDrop (':' :: (jsonRender v ++ rest2)) with
    | ':' :: r2 => do
        let q ← jsonParseVal f r2
        (match wsDrop q.2 with
        | ',' :: r4 => do
            let w ← jsonParseObj f r4
            pure (JsObj.cons ⟨k.data⟩ q.1 w.1, w.2)
        | '}' :: r4 => pure (JsObj.cons ⟨k.data⟩ q.1 .nil, r4)
        | _ => none)
    | _ => none) = _
  rw [wsDrop_not_ws _ (by decide)]
  show (do
    let q ← jsonParseVal f (jsonRender v ++ rest2)
    (match wsDrop q.2 with
    | ',' :: r4 => do
        let w ← jsonParseObj f r4
        pure (JsObj.cons ⟨k.data⟩ q.1 w.1, w.2)
    | '}' :: r4 => pure (JsObj.cons ⟨k.data⟩ q.1 .nil, r4)
    | _ => none)) = _
  rw [hval]
  rfl

mutual
lemma jsonParseVal_render : ∀ (v : JsValue) (f : Nat) (rest : List Char),
    wfV v = true → fuelV v ≤ f → numDelim rest = true →
    jsonParseVal f (jsonRender v ++ rest) = some (v, rest)
  | .null, f, rest, _, hfu, _ => by
      rcases f with _ | f
      · exact absurd hfu (by simp [fuelV])
      · exact jsonParseVal_null f rest
  | .bool b, f, rest, _, hfu, _ => by
      rcases f with _ | f
      · exact absurd hfu (by simp [fuelV])
      · exact jsonParseVal_bool f b rest
  | .str s, f, rest, _, hfu, _ => by
      rcases f with _ | f
      · exact absurd hfu (by simp [fuelV])
      · exact jsonParseVal_str f s rest
  | .num s, f, rest, hwf, hfu, hrest => by
      rcases f with _ | f
      · exact absurd hfu (by simp [fuelV])
      · exact jsonParseVal_num f s rest (by simpa [wfV] using hwf) hrest
  | .arr .nil, f, rest, _, hfu, _ => by
      rcases f with _ | f
      · exact absurd hfu (by simp [fuelV, fuelA])
      · exact jsonParseVal_arrNil f rest
  | .obj .nil, f, rest, _, hfu, _ => by
      rcases f with _ | f
      · exact absurd hfu (by simp [fuelV, fuelO])
      · exact jsonParseVal_objNil f rest
  | .arr (.cons v tl), f, rest, hwf, hfu, hrest => by
      rcases f with _ | f
      · exact absurd hfu (by simp [fuelV])
      · have hA : wfA (JsArr.cons v tl) = true := by simpa [wfV] using hwf
        have hv : wfV v = true := by
          simp only [wfA, Bool.and_eq_true, decide_eq_true_eq] at hA
          exact hA.1
        have hfa : fuelA (JsArr.cons v tl) ≤ f := by
          simp only [fuelV] at hfu
          omega
        exact jsonParseVal_arrCons f v tl rest hv
          (jsonParseArr_render v tl f rest hA hfa)
  | .obj (.cons k v tl), f, rest, hwf, hfu, hrest => by
      rcases f with _ | f
      · exact absurd hfu (by simp [fuelV])
      · have hO : wfO (JsObj.cons k v tl) = true := by simpa [wfV] using hwf
        have hfo : fuelO (JsObj.cons k v tl) ≤ f := by
          simp only [fuelV] at hfu
          omega
        exact jsonParseVal_objCons f k v tl rest
          (jsonParseObj_render k v tl f rest hO hfo)
termination_by v _ _ => sizeOf v
lemma jsonParseArr_render : ∀ (v : JsValue) (tl : JsArr) (f : Nat) (rest : List Char),
    wfA (.cons v tl) = true → fuelA (.cons v tl) ≤ f →
    jsonParseArr f (jsonRenderArr (.cons v tl) ++ ']' :: rest)
      = some (.cons v tl, rest)
  | v, tl, f, rest, hwf, hfu => by
      have hsplit : wfV v = true ∧ wfA tl = true := by
        simpa [wfA, Bool.and_eq_true] using hwf
      rcases f with _ | f
      · exact absurd hfu (by simp [fuelA])
      · have hmx : Nat.max (fuelV v) (fuelA tl) ≤ f := by
          simp only [fuelA] at hfu
          omega
        have hfv : fuelV v ≤ f := le_trans (Nat.le_max_left _ _) hmx
        cases tl with
        | nil =>
            have hval := jsonParseVal_render v f (']' :: rest) hsplit.1 hfv (by rfl)
            show jsonParseArr (f + 1) (jsonRender v ++ ']' :: rest) = _
            rw [jsonParseArr_elem f v (']' :: rest) hval,
              wsDrop_not_ws _ (by decide)]
            rfl
        | cons w tl2 =>
            have hfa : fuelA (JsArr.cons w tl2) ≤ f :=
              le_trans (Nat.le_max_right (fuelV v) _) hmx
            show jsonParseArr (f + 1)
              ((jsonRender v ++ ',' :: jsonRenderArr (.cons w tl2)) ++ ']' :: rest) = _
            rw [List.append_assoc, List.cons_append]
            have hval := jsonParseVal_render v f
              (',' :: (jsonRenderArr (.cons w tl2) ++ ']' :: rest)) hsplit.1 hfv (by rfl)
            rw [jsonParseArr_elem f v _ hval, wsDrop_not_ws _ (by decide)]
            show (do
              let p ← jsonParseArr f (jsonRenderArr (.cons w tl2) ++ ']' :: rest)
              pure (JsArr.cons v p.1, p.2)) = _
            rw [jsonParseArr_render w tl2 f rest hsplit.2 hfa]
            rfl
termination_by v tl _ _ => 1 + sizeOf v + sizeOf tl
lemma jsonParseObj_render : ∀ (k : String) (v : JsValue) (tl : JsObj) (f : Nat)
    (rest : List Char),
    wfO (.cons k v tl) = true → fuelO (.cons k v tl) ≤ f →
    jsonParseObj f (jsonRenderObj (.cons k v tl) ++ '}' :: rest)
      = some (.cons k v tl, rest)
  | k, v, tl, f, rest, hwf, hfu => by
      have hsplit : wfV v = true ∧ wfO tl = true := by
        simpa [wfO, Bool.and_eq_true] using hwf
      rcases f with _ | f
      · exact absurd hfu (by simp [fuelO])
      · have hmx : Nat.max (fuelV v) (fuelO tl) ≤ f := by
          simp only [fuelO] at hfu
          omega
        have hfv : fuelV v ≤ f := le_trans (Nat.le_max_left _ _) hmx
        cases tl with
        | nil =>
            have hval := jsonParseVal_render v f ('}' :: rest) hsplit.1 hfv (by rfl)
            show jsonParseObj (f + 1)
              ((jsonQuote k ++ ':' :: jsonRender v) ++ '}' :: rest) = _
            rw [List.append_assoc, List.cons_append]
            rw [jsonParseObj_member f k v ('}' :: rest) hval,
              wsDrop_not_ws _ (by decide)]
            rfl
        | cons k2 w tl2 =>
            have hfo : fuelO (JsObj.cons k2 w tl2) ≤ f :=
              le_trans (Nat.le_max_right (fuelV v) _) hmx
            show jsonParseObj (f + 1)
              ((jsonQuote k ++ ':' :: jsonRender v ++ ',' :: jsonRenderObj (.cons k2 w tl2))
                ++ '}' :: rest) = _
            rw [List.append_assoc, List.cons_append, List.append_assoc, List.cons_append]
            have hval := jsonParseVal_render v f
              (',' :: (jsonRenderObj (.cons k2 w tl2) ++ '}' :: rest)) hsplit.1 hfv (by rfl)
            rw [jsonParseObj_member f k v _ hval, wsDrop_not_ws _ (by decide)]
            show (do
              let p ← jsonParseObj f (jsonRenderObj (.cons k2 w tl2) ++ '}' :: rest)
              pure (JsObj.cons k v p.1, p.2)) = _
            rw [jsonParseObj_render k2 w tl2 f rest hsplit.2 hfo]
            rfl
termination_by _ v tl _ _ => 1 + sizeOf v + sizeOf tl
end

end Adapter
